import Mathlib

/-!
Verification of the generated-code application pipeline of the grow99 backend
(`routes/apply_ai_code_stream.py`, `routes/generate_ai_stream.py`,
`routes/detect-and_install_packages.py`, `routes/restart_vite.py`).

All definitions are shallow embeddings of the Python source: strings are
`List Char` internally (wrapped in `String` at the interfaces), Python's
mutable loops are folds over explicit state, and the remote-sandbox SDK is
an oracle parameter.  Regular expressions from the source are transcribed
into an explicit AST (`Rx`) and run by a backtracking matcher that returns
all solutions in the engine's preference order, mirroring the leftmost /
greedy / lazy semantics of Python's `re` module.
-/

set_option maxRecDepth 8000

namespace Grow99


/-! ## Basic character and list helpers -/

/-- The characters Python 3 treats as whitespace (`str.isspace()`, hence
`str.strip()` / `str.rstrip()` and the `re` module's `\s` on `str`
patterns): ASCII whitespace, the separators 1C-1F, NEL, NBSP and the
Unicode space characters. -/
def isPyWs (c : Char) : Bool :=
  c = ' ' || c = '\t' || c = '\n' || c = '\r' || c = '\x0b' || c = '\x0c' ||
  c = '\x1c' || c = '\x1d' || c = '\x1e' || c = '\x1f' || c = '\u0085' ||
  c = '\u00A0' || c = '\u1680' || ('\u2000' ≤ c && c ≤ '\u200A') ||
  c = '\u2028' || c = '\u2029' || c = '\u202F' || c = '\u205F' || c = '\u3000'

/-- Python `str.strip()`. -/
def trimPy (l : List Char) : List Char :=
  ((l.dropWhile isPyWs).reverse.dropWhile isPyWs).reverse

/-- Python `str.rstrip()`. -/
def rstripPy (l : List Char) : List Char :=
  (l.reverse.dropWhile isPyWs).reverse

/-- Python `needle in hay` on strings (substring containment). -/
def containsSub (needle hay : List Char) : Bool :=
  match hay with
  | [] => needle.isEmpty
  | _ :: t => needle.isPrefixOf hay || containsSub needle t

/-- Python `str.startswith`. -/
def startsWithL (pre l : List Char) : Bool := pre.isPrefixOf l

/-- Python `str.endswith`. -/
def endsWithL (suf l : List Char) : Bool := suf.reverse.isPrefixOf l.reverse

/-- Python `str.replace(old, "")` for a fixed non-empty needle: remove every
occurrence of `old`, scanning left to right.  (Structural recursion on a
fuel bounded by the input length, so that the kernel can evaluate it.) -/
def removeAllSubF (old : List Char) : Nat → List Char → List Char
  | 0, s => s
  | _ + 1, [] => []
  | f + 1, c :: t =>
    if old.isPrefixOf (c :: t) ∧ old ≠ [] then
      removeAllSubF old f (List.drop (old.length - 1) t)
    else
      c :: removeAllSubF old f t

def removeAllSub (old s : List Char) : List Char :=
  removeAllSubF old s.length s

/-- Ordered de-duplication, first occurrence kept: the effect of the
source's `if x not in seen` accumulation and of `dict.fromkeys`. -/
def pyDedup (l : List (List Char)) : List (List Char) :=
  (l.foldl (fun acc x => if x ∈ acc then acc else acc ++ [x]) [])

/-- Python dict insertion `m[k] = v`: an existing key keeps its position and
gets the new value, a new key is appended. -/
def dictInsert (m : List (List Char × List Char)) (k v : List Char) :
    List (List Char × List Char) :=
  if k ∈ m.map Prod.fst then
    m.map (fun kv => if kv.1 = k then (k, v) else kv)
  else
    m ++ [(k, v)]

/-- Folding `dictInsert` over a list of key/value pairs from the empty
dict. -/
def buildMapD (l : List (List Char × List Char)) : List (List Char × List Char) :=
  l.foldl (fun m pr => dictInsert m pr.1 pr.2) []

/-- The value Python's successive `m[k] = v` assignments leave at `k`: the
last value bound to it. -/
def lastAssoc (l : List (List Char × List Char)) (k : List Char) :
    Option (List Char) :=
  ((l.filter (fun pr => pr.1 = k)).getLast?).map Prod.snd

/-- Python `s.split(sep)` restricted to single-character separators, as used
with `content.split('\n')`. -/
def splitOnChar (sep : Char) (l : List Char) : List (List Char) :=
  match l with
  | [] => [[]]
  | c :: t =>
    let r := splitOnChar sep t
    if c = sep then [] :: r
    else
      match r with
      | [] => [[c]]
      | h :: t' => (c :: h) :: t'

/-- Python `'\n'.join(lines)`. -/
def joinWithChar (sep : Char) : List (List Char) → List Char
  | [] => []
  | [x] => x
  | x :: y :: t => x ++ sep :: joinWithChar sep (y :: t)

/-! ## The "UTF-8 / smart-quote" sanitizer

`sanitize_content_for_utf8` (apply_ai_code_stream.py, lines 51-74).  The
initial `content.encode('utf-8', errors='replace').decode('utf-8')` round
trip is the identity on every well-formed Unicode string (which is all a
Lean `String` can hold), so it is not represented.  The replacement table
of lines 60-69 is applied by successive `str.replace` calls in dict order,
but the table's source bytes do not say what its comments say: the two
"double quotation mark" keys and the "non-breaking space" key are written
with plain ASCII quote/space characters, so those entries are identities,
and the two "single quotation mark" lines each start with three ASCII
apostrophes, so Python tokenizes them as ONE triple-quoted string key
(`junkKey` below, everything from after the opening apostrophes of the left-single
line to the next line's indentation) mapped to a single apostrophe.  The
only genuine replacements are junkKey, en dash, em dash and ellipsis. -/

/-- One `str.replace(old, new)` pass where `old` is a single character. -/
def replaceCharWith (old : Char) (new : List Char) (l : List Char) : List Char :=
  l.flatMap (fun c => if c = old then new else [c])

/-- Python `str.replace(old, rep)` for a general needle: replace every
non-overlapping occurrence, scanning left to right; the replacement text
is not rescanned.  (Structural recursion on a fuel bounded by the input
length, so that the kernel can evaluate it.) -/
def replaceSubF (old rep : List Char) : Nat → List Char → List Char
  | 0, s => s
  | _ + 1, [] => []
  | f + 1, c :: t =>
    if old.isPrefixOf (c :: t) ∧ old ≠ [] then
      rep ++ replaceSubF old rep f (List.drop (old.length - 1) t)
    else
      c :: replaceSubF old rep f t

def pyReplace (old rep s : List Char) : List Char :=
  replaceSubF old rep s.length s

/-- The dictionary key the source's two smart-single-quote lines actually
form: the three apostrophes of browser-mangled line 63 open a triple-quoted
string that runs to the three apostrophes opening line 64, so the key is
the rest of line 63 plus the newline and line 64's indentation, and its
value is the lone apostrophe that follows. -/
def junkKey : List Char :=
  ": \"'\",    # Left single quotation mark\n        ".data

/-- `sanitize_content_for_utf8`: the replacement table of lines 60-69 as
its bytes stand (see the section comment).  The identity entries for the
ASCII quote and space keys are dropped; the remaining passes run in dict
order: `junkKey` then en dash, em dash, ellipsis (a single-character
`str.replace` is modeled per character). -/
def sanitizeL (l : List Char) : List Char :=
  replaceCharWith '\u2026' ['.', '.', '.'] <|
  replaceCharWith '\u2014' ['-', '-'] <|
  replaceCharWith '\u2013' ['-'] <|
  pyReplace junkKey ['\''] l

/-- String-level wrapper of `sanitize_content_for_utf8`. -/
def sanitize_content_for_utf8 (s : String) : String :=
  ⟨sanitizeL s.data⟩

/-! ## A small regular-expression engine

The Python source drives its parsing with `re.findall` / `re.search` /
`re.sub`.  Each pattern below is transcribed into this AST and executed by
`mat`, a backtracking matcher that returns *all* matches of a pattern
against a prefix of the input, in exactly the preference order of Python's
`re` engine (ordered alternation, greedy/lazy repetition).  `matchHere`
takes the first solution, which is therefore the match `re` would produce
at that position. -/

inductive Rx where
  | eps : Rx
  | lit : Char → Rx
  /-- character class; `neg = true` for `[^…]`, ranges are inclusive. -/
  | cls : Bool → List (Char × Char) → Rx
  /-- `.` ; the flag is `re.DOTALL` (matches `\n` as well). -/
  | dot : Bool → Rx
  | seq : Rx → Rx → Rx
  | alt : Rx → Rx → Rx
  /-- repetition; `lazy = true` for `*?`. -/
  | star : Bool → Rx → Rx
  /-- greedy `?`. -/
  | opt : Rx → Rx
  /-- capture group `n`. -/
  | grp : Nat → Rx → Rx
  /-- lookahead `(?=…)`. -/
  | look : Rx → Rx
  /-- `$` (end of input, or just before a final newline). -/
  | eos : Rx
deriving Repr

abbrev Caps := List (Nat × List Char)

def clsMatch (neg : Bool) (rs : List (Char × Char)) (c : Char) : Bool :=
  let inR := rs.any (fun p => decide (p.1 ≤ c) && decide (c ≤ p.2))
  if neg then !inR else inR

/-- All ways `r` can match a prefix of `s`, each as (remaining suffix,
captured groups), in the `re` engine's preference order.  `fuel` bounds the
recursion depth; `matchHere` supplies enough for any match. -/
def mat : Nat → Rx → List Char → List (List Char × Caps)
  | 0, _, _ => []
  | _ + 1, .eps, s => [(s, [])]
  | _ + 1, .lit c, s =>
    match s with
    | [] => []
    | d :: t => if d = c then [(t, [])] else []
  | _ + 1, .cls n rs, s =>
    match s with
    | [] => []
    | d :: t => if clsMatch n rs d then [(t, [])] else []
  | _ + 1, .dot da, s =>
    match s with
    | [] => []
    | d :: t => if da || d ≠ '\n' then [(t, [])] else []
  | f + 1, .seq a b, s =>
    (mat f a s).flatMap (fun p => (mat f b p.1).map (fun q => (q.1, p.2 ++ q.2)))
  | f + 1, .alt a b, s => mat f a s ++ mat f b s
  | f + 1, .star lz e, s =>
    let more := (mat f e s).flatMap (fun p =>
      if p.1.length < s.length then
        (mat f (.star lz e) p.1).map (fun q => (q.1, p.2 ++ q.2))
      else [])
    if lz then (s, []) :: more else more ++ [(s, [])]
  | f + 1, .opt e, s => mat f e s ++ [(s, [])]
  | f + 1, .grp n e, s =>
    (mat f e s).map (fun p => (p.1, (n, s.take (s.length - p.1.length)) :: p.2))
  | f + 1, .look e, s =>
    match mat f e s with
    | [] => []
    | p :: _ => [(s, p.2)]
  | _ + 1, .eos, s => if s = [] ∨ s = ['\n'] then [(s, [])] else []

def rxSize : Rx → Nat
  | .eps | .lit _ | .cls _ _ | .dot _ | .eos => 1
  | .seq a b | .alt a b => rxSize a + rxSize b + 1
  | .star _ e | .opt e | .grp _ e | .look e => rxSize e + 1

/-- Fuel sufficient for any match of `r` against `s`: recursion depth is
bounded by the pattern size times the number of characters a repetition can
consume. -/
def rxFuel (r : Rx) (s : List Char) : Nat :=
  (s.length + 2) * (rxSize r + 2)

/-- The match `re` produces when anchoring `r` at the start of `s`. -/
def matchHere (r : Rx) (s : List Char) : Option (List Char × Caps) :=
  (mat (rxFuel r s) r s).head?

def findAllAux (r : Rx) : Nat → List Char → List Caps
  | 0, _ => []
  | f + 1, s =>
    match matchHere r s with
    | some (rest, caps) =>
      if rest.length < s.length then caps :: findAllAux r f rest
      else
        match s with
        | [] => [caps]
        | _ :: t => caps :: findAllAux r f t
    | none =>
      match s with
      | [] => []
      | _ :: t => findAllAux r f t

/-- `re.findall` / `re.finditer`: non-overlapping matches, scanning left to
right. -/
def findAllCaps (r : Rx) (s : List Char) : List Caps :=
  findAllAux r (s.length + 1) s

/-- `re.search`: captures of the first match. -/
def searchCaps (r : Rx) : List Char → Option Caps
  | [] =>
    match matchHere r [] with
    | some (_, caps) => some caps
    | none => none
  | c :: t =>
    match matchHere r (c :: t) with
    | some (_, caps) => some caps
    | none => searchCaps r t

/-- `m.group(n)` (our patterns' groups always participate in a match). -/
def getCap (caps : Caps) (n : Nat) : List Char :=
  match caps.find? (fun p => p.1 = n) with
  | some p => p.2
  | none => []

/-- `re.sub(r, "", s)`: delete every non-overlapping match. -/
def reSubDelete (r : Rx) : Nat → List Char → List Char
  | 0, s => s
  | f + 1, s =>
    match matchHere r s with
    | some (rest, _) =>
      if rest.length < s.length then reSubDelete r f rest
      else
        match s with
        | [] => []
        | c :: t => c :: reSubDelete r f t
    | none =>
      match s with
      | [] => []
      | c :: t => c :: reSubDelete r f t

def reSubDeleteAll (r : Rx) (s : List Char) : List Char :=
  reSubDelete r (s.length + 1) s

/-- `re.sub(r, r'\1' + ins, s, count=1)` where group 1 is the whole match:
insert `ins` right after the first match. -/
def subFirstAfter (r : Rx) (ins : List Char) : List Char → List Char
  | [] => []
  | c :: t =>
    match matchHere r (c :: t) with
    | some (rest, _) =>
      (c :: t).take ((c :: t).length - rest.length) ++ ins ++ rest
    | none => c :: subFirstAfter r ins t

/-! ### Pattern-building helpers -/

def rlit (l : List Char) : Rx := l.foldr (fun c acc => .seq (.lit c) acc) .eps

def rstr (s : String) : Rx := rlit s.data

def rcat (l : List Rx) : Rx := l.foldr .seq .eps

/-- A class that never matches; base case of alternation lists. -/
def rfail : Rx := .cls false []

def ralts (l : List Rx) : Rx :=
  match l with
  | [] => rfail
  | [x] => x
  | x :: y :: t => .alt x (ralts (y :: t))

def rchar (c : Char) : Rx := .lit c

/-- `\s` (ASCII, see `isPyWs`). -/
def wsR : Rx :=
  .cls false [(' ', ' '), ('\t', '\t'), ('\n', '\n'), ('\r', '\r'),
              ('\x0b', '\x0b'), ('\x0c', '\x0c')]

/-- `\w`. -/
def wordR : Rx := .cls false [('a', 'z'), ('A', 'Z'), ('0', '9'), ('_', '_')]

/-- `e+` as `e e*` (same match set and preference order). -/
def plusR (e : Rx) : Rx := .seq e (.star false e)

/-- `[\s\S]` — any character. -/
def anyR : Rx := .cls true []

/-! ## Strategy 1: well-formed `<file path="…">…</file>` pairs

`re.findall(r'<file\s+path="([^"]+)">(.*?)</file>', response, re.DOTALL)`
(apply_ai_code_stream.py line 525).  This pattern is deterministic: after
`path="` the greedy `[^"]+` necessarily runs to the next `"` (shrinking it
can never make the following `"` match), and the lazy `(.*?)` stops at the
first `</file>`.  `findFileTags` implements exactly that: at each position
it attempts the full pattern and on failure advances one character, which
is `re.findall`'s non-overlapping left-to-right scan. -/

/-- Strip a literal prefix, returning the remainder. -/
def stripPre : List Char → List Char → Option (List Char)
  | [], l => some l
  | _ :: _, [] => none
  | a :: as, b :: bs => if a = b then stripPre as bs else none

/-- `[^"]` as a predicate (for `takeWhile`/`dropWhile`). -/
def notDQ (c : Char) : Bool := c ≠ '"'

/-- Split at the first occurrence of `</file>`: the lazy `(.*?)</file>`. -/
def splitAtCloseTag : List Char → Option (List Char × List Char)
  | [] => none
  | c :: t =>
    match stripPre ("</file>".data) (c :: t) with
    | some r => some ([], r)
    | none =>
      match splitAtCloseTag t with
      | some (b, r) => some (c :: b, r)
      | none => none

/-- Try the full file-tag pattern anchored at the head of `l`; on success
return (path, body, rest-of-input). -/
def matchFileTagAt (l : List Char) : Option (List Char × List Char × List Char) :=
  match stripPre ("<file".data) l with
  | none => none
  | some r1 =>
    if (r1.takeWhile isPyWs).isEmpty then none
    else
      match stripPre ("path=\"".data) (r1.dropWhile isPyWs) with
      | none => none
      | some r3 =>
        let p := r3.takeWhile notDQ
        if p.isEmpty then none
        else
          match stripPre ("\">".data) (r3.dropWhile notDQ) with
          | none => none
          | some r5 =>
            match splitAtCloseTag r5 with
            | none => none
            | some (b, rest) => some (p, b, rest)

/-- The non-overlapping left-to-right scan, on a fuel bounded by the input
length (so that the kernel can evaluate it; `matchFileTagAt_rest_lt` makes
the fuel sufficient, see `findFileTagsF_fuel_irrel`). -/
def findFileTagsF : Nat → List Char → List (List Char × List Char)
  | 0, _ => []
  | _ + 1, [] => []
  | f + 1, c :: t =>
    match matchFileTagAt (c :: t) with
    | some (p, b, rest) => (p, b) :: findFileTagsF f rest
    | none => findFileTagsF f t

def findFileTags (l : List Char) : List (List Char × List Char) :=
  findFileTagsF l.length l

/-! ## Transcribed patterns of `parse_ai_response` and friends -/

/-- `['"]`. -/
def qcls : Rx := .cls false [('\'', '\''), ('"', '"')]

/-- `[^'"]`. -/
def nonQuote : Rx := .cls true [('\'', '\''), ('"', '"')]

/-- `[^"]`. -/
def nonDQuote : Rx := .cls true [('"', '"')]

/-- Strategy 2, `<file\s+path="([^"]+)">(.*?)(?=<file|$)` (line 538). -/
def incompletePat : Rx :=
  rcat [rstr "<file", plusR wsR, rstr "path=\"", .grp 1 (plusR nonDQuote),
        rstr "\">", .grp 2 (.star true (.dot true)),
        .look (.alt (rstr "<file") .eos)]

/-- `(?:jsx|js|javascript|tsx|ts|css)`. -/
def langAlt : Rx :=
  ralts [rstr "jsx", rstr "js", rstr "javascript", rstr "tsx", rstr "ts", rstr "css"]

/-- `(?:jsx?|tsx?|css)`. -/
def extAlt : Rx :=
  ralts [rcat [rstr "js", .opt (rchar 'x')], rcat [rstr "ts", .opt (rchar 'x')],
         rstr "css"]

/-- `["'`]`. -/
def quoteOrTick : Rx := .cls false [('"', '"'), ('\'', '\''), ('`', '`')]

/-- `[^\s\n"'`]` (`\s` already contains `\n`). -/
def nonWsQuoteTick : Rx :=
  .cls true [(' ', ' '), ('\t', '\t'), ('\n', '\n'), ('\r', '\r'),
             ('\x0b', '\x0b'), ('\x0c', '\x0c'), ('"', '"'), ('\'', '\''), ('`', '`')]

/-- `[^\s\n]`. -/
def nonWs : Rx :=
  .cls true [(' ', ' '), ('\t', '\t'), ('\n', '\n'), ('\r', '\r'),
             ('\x0b', '\x0b'), ('\x0c', '\x0c')]

/-- Strategy 3 pattern 1 (line 552):
``` ```(?:jsx|js|javascript|tsx|ts|css)\s+(?:path=["'`])?([^\s\n"'`]+\.(?:jsx?|tsx?|css))\s*\n(.*?)\n``` ``` -/
def codeBlockPatA : Rx :=
  rcat [rstr "```", langAlt, plusR wsR, .opt (rcat [rstr "path=", quoteOrTick]),
        .grp 1 (rcat [plusR nonWsQuoteTick, rchar '.', extAlt]),
        .star false wsR, rchar '\n', .grp 2 (.star true (.dot true)), rstr "\n```"]

/-- Strategy 3 pattern 2 (line 553):
``` ```(?:jsx|js|javascript|tsx|ts|css)\s*\n(?://\s*)?([^\s\n]+\.(?:jsx?|tsx?|css))\s*\n(.*?)\n``` ``` -/
def codeBlockPatB : Rx :=
  rcat [rstr "```", langAlt, .star false wsR, rchar '\n',
        .opt (rcat [rstr "//", .star false wsR]),
        .grp 1 (rcat [plusR nonWs, rchar '.', extAlt]),
        .star false wsR, rchar '\n', .grp 2 (.star true (.dot true)), rstr "\n```"]

/-- Strategy 4 (line 578):
`\*\*(src/[^*\n]+)\*\*\s*```(?:jsx|js|css|json)?\s*\n(.*?)\n``` ` -/
def markdownPat : Rx :=
  rcat [rstr "**",
        .grp 1 (rcat [rstr "src/", plusR (.cls true [('*', '*'), ('\n', '\n')])]),
        rstr "**", .star false wsR, rstr "```",
        .opt (ralts [rstr "jsx", rstr "js", rstr "css", rstr "json"]),
        .star false wsR, rchar '\n', .grp 2 (.star true (.dot true)), rstr "\n```"]

/-- Strategy 5 pattern 1 (line 594):
`(import React.*?(?:export default \w+|export \{ \w+ as default \}))` -/
def componentPat1 : Rx :=
  .grp 1 (rcat [rstr "import React", .star true (.dot true),
    .alt (rcat [rstr "export default ", plusR wordR])
         (rcat [rstr "export \x7b ", plusR wordR, rstr " as default \x7d"])])

/-- Strategy 5 pattern 2 (line 596): `((?:function|const) \w+.*?export default \w+)` -/
def componentPat2 : Rx :=
  .grp 1 (rcat [.alt (rstr "function") (rstr "const"), rchar ' ', plusR wordR,
                .star true (.dot true), rstr "export default ", plusR wordR])

/-- Strategy 6 JSX (line 623): `(function \w+.*?export default \w+)` -/
def lastResortJsxPat : Rx :=
  .grp 1 (rcat [rstr "function ", plusR wordR, .star true (.dot true),
                rstr "export default ", plusR wordR])

/-- Strategy 6 CSS (line 629): `(@tailwind base;.*?)` -/
def lastResortCssPat : Rx :=
  .grp 1 (rcat [rstr "@tailwind base;", .star true (.dot true)])

/-- `<command>(.*?)</command>` — no DOTALL, so `.` excludes newlines. -/
def commandPat : Rx :=
  rcat [rstr "<command>", .grp 1 (.star true (.dot false)), rstr "</command>"]

/-- `<package>(.*?)</package>`. -/
def packagePat : Rx :=
  rcat [rstr "<package>", .grp 1 (.star true (.dot false)), rstr "</package>"]

/-- `<packages>([\s\S]*?)</packages>`. -/
def packagesPat : Rx :=
  rcat [rstr "<packages>", .grp 1 (.star true anyR), rstr "</packages>"]

/-- `<structure>([\s\S]*?)</structure>`. -/
def structurePat : Rx :=
  rcat [rstr "<structure>", .grp 1 (.star true anyR), rstr "</structure>"]

/-- `<explanation>([\s\S]*?)</explanation>`. -/
def explanationPat : Rx :=
  rcat [rstr "<explanation>", .grp 1 (.star true anyR), rstr "</explanation>"]

/-- `<template>(.*?)</template>`. -/
def templatePat : Rx :=
  rcat [rstr "<template>", .grp 1 (.star true (.dot false)), rstr "</template>"]

/-- `(?:\{[^}]*\}|\*\s+as\s+\w+|\w+)` — one import clause. -/
def importClause : Rx :=
  ralts [rcat [.lit '\x7b', .star false (.cls true [('\x7d', '\x7d')]), .lit '\x7d'],
         rcat [.lit '*', plusR wsR, rstr "as", plusR wsR, plusR wordR],
         plusR wordR]

/-- apply_ai_code_stream.py line 501:
`import\s+(?:(?:…)(?:\s*,\s*(?:…))*\s+from\s+)?['"]([^'"]+)['"]` -/
def importPatApply : Rx :=
  rcat [rstr "import", plusR wsR,
        .opt (rcat [importClause,
          .star false (rcat [.star false wsR, .lit ',', .star false wsR, importClause]),
          plusR wsR, rstr "from", plusR wsR]),
        qcls, .grp 1 (plusR nonQuote), qcls]

/-- detect-and_install_packages.py line 133:
`import\s+(?:(?:…)\s*,?\s*)*(?:from\s+)?['"]([^'"]+)['"]` -/
def importPatDetect : Rx :=
  rcat [rstr "import", plusR wsR,
        .star false (rcat [importClause, .star false wsR, .opt (.lit ','), .star false wsR]),
        .opt (rcat [rstr "from", plusR wsR]),
        qcls, .grp 1 (plusR nonQuote), qcls]

/-- detect-and_install_packages.py line 134: `require\s*\(\s*['"]([^'"]+)['"]\s*\)` -/
def requirePat : Rx :=
  rcat [rstr "require", .star false wsR, .lit '(', .star false wsR, qcls,
        .grp 1 (plusR nonQuote), qcls, .star false wsR, .lit ')']

/-- apply_ai_code_stream.py line 963: `import\s+['"]\./[^'"]+\.css['"];?\s*\n?` -/
def cssImportPat : Rx :=
  rcat [rstr "import", plusR wsR, qcls, rstr "./", plusR nonQuote, rstr ".css",
        qcls, .opt (.lit ';'), .star false wsR, .opt (.lit '\n')]

/-- generate_ai_stream.py line 1249: `(import[^;]+;)` (group 1 is the whole
match, so the substitution `\1\nimport React from "react"` just inserts
after it). -/
def importStmtPat : Rx :=
  rcat [rstr "import", plusR (.cls true [(';', ';')]), .lit ';']

/-- apply_ai_code_stream.py line 117: `(?:function|const)\s+(\w+)` -/
def funcNamePatApply : Rx :=
  rcat [.alt (rstr "function") (rstr "const"), plusR wsR, .grp 1 (plusR wordR)]

/-- generate_ai_stream.py line 1257: `function\s+(\w+)` -/
def funcNamePatGen : Rx :=
  rcat [rstr "function", plusR wsR, .grp 1 (plusR wordR)]

/-! ## `parse_ai_response` (apply_ai_code_stream.py, lines 484-696) -/

structure FileEdit where
  path : String
  content : String
deriving Repr, DecidableEq

structure Sections where
  files : List FileEdit
  commands : List String
  packages : List String
  structureText : Option String
  explanation : String
  template : String
deriving Repr, DecidableEq

/-- Trim-then-sanitize applied to every stored body:
`sanitize_content_for_utf8(content.strip())`. -/
def cleanBody (b : List Char) : List Char := sanitizeL (trimPy b)

/-- Strategy 1's `file_map` accumulation (lines 528-534): keep only matches
with non-empty cleaned content, Python-dict semantics on duplicate paths.
(The `is_complete` flag stored alongside is only ever printed, so it is not
represented.) -/
def buildS1Map (ms : List (List Char × List Char)) : List (List Char × List Char) :=
  ms.foldl (fun m pr =>
    if (cleanBody pr.2).isEmpty then m else dictInsert m pr.1 (cleanBody pr.2)) []

/-- Strategy 2 (lines 537-547): truncated tags; bodies have any stray
`</file>` removed, and survive only when longer than 10 characters. -/
def buildS2Map (t : List Char) : List (List Char × List Char) :=
  (findAllCaps incompletePat t).foldl (fun m caps =>
    let cleaned := sanitizeL (trimPy (removeAllSub ("</file>".data) (getCap caps 2)))
    if ¬cleaned.isEmpty ∧ cleaned.length > 10 then dictInsert m (getCap caps 1) cleaned
    else m) []

/-- Path normalization inside strategy 3 (lines 561-568). -/
def fixCodePath (p : List Char) : List Char :=
  if ¬startsWithL ("src/".data) p ∧
      (endsWithL (".jsx".data) p ∨ endsWithL (".tsx".data) p ∨
       endsWithL (".js".data) p ∨ endsWithL (".ts".data) p) then
    if containsSub ("components/".data) p then "src/".data ++ p
    else if ¬startsWithL ("/".data) p ∧ p ≠ "index.css".data then "src/".data ++ p
    else p
  else if p = "index.css".data then "src/index.css".data
  else p

def buildS3MapFrom (ms : List Caps) : List (List Char × List Char) :=
  ms.foldl (fun m caps =>
    let path := fixCodePath (getCap caps 1)
    let cleaned := cleanBody (getCap caps 2)
    if cleaned.isEmpty then m else dictInsert m path cleaned) []

/-- Strategy 3 (lines 550-574): two fence patterns, first with matches wins
(the loop `break`s after the first pattern that produced matches). -/
def buildS3Map (t : List Char) : List (List Char × List Char) :=
  let m1 := findAllCaps codeBlockPatA t
  if ¬m1.isEmpty then buildS3MapFrom m1
  else
    let m2 := findAllCaps codeBlockPatB t
    if ¬m2.isEmpty then buildS3MapFrom m2 else []

/-- Strategy 4 (lines 577-585): markdown headers; note the source stores
the trimmed body with *no* emptiness check. -/
def buildS4Map (t : List Char) : List (List Char × List Char) :=
  (findAllCaps markdownPat t).foldl (fun m caps =>
    dictInsert m (getCap caps 1) (cleanBody (getCap caps 2))) []

/-- The default stylesheet synthesized by strategy 5 (line 613). -/
def defaultIndexCss : List Char :=
  ("@tailwind base;\n@tailwind components;\n@tailwind utilities;\n\nbody \x7b\n  margin: 0;\n  font-family: -apple-system, BlinkMacSystemFont, 'Segoe UI', 'Roboto', sans-serif;\n  -webkit-font-smoothing: antialiased;\n  -moz-osx-font-smoothing: grayscale;\n\x7d").data

/-- Python `max(l, key=len)`: first element of maximal length. -/
def maxByLen (h : List Char) (t : List (List Char)) : List Char :=
  t.foldl (fun best x => if x.length > best.length then x else best) h

/-- Strategy 5 (lines 588-616): guarded by the React-idiom substrings;
extracts the largest component match as `src/App.jsx` and always ensures an
`index.css` (both inside the guard). -/
def buildS5Map (t : List Char) : List (List Char × List Char) :=
  if containsSub ("import React".data) t ∨ containsSub ("function App".data) t ∨
      containsSub ("export default".data) t then
    let comps := (findAllCaps componentPat1 t ++ findAllCaps componentPat2 t).map
      (fun c => getCap c 1)
    let m1 :=
      match comps with
      | [] => []
      | h :: rest => dictInsert [] ("src/App.jsx".data) (cleanBody (maxByLen h rest))
    if ¬(m1.map Prod.fst).any (fun k => endsWithL ("index.css".data) k) then
      dictInsert m1 ("src/index.css".data) (sanitizeL defaultIndexCss)
    else m1
  else []

/-- Strategy 6 (lines 619-632): last-resort `re.search`es. -/
def buildS6Map (t : List Char) : List (List Char × List Char) :=
  let m1 :=
    match searchCaps lastResortJsxPat t with
    | some caps => dictInsert [] ("src/App.jsx".data) (cleanBody (getCap caps 1))
    | none => []
  match searchCaps lastResortCssPat t with
  | some caps => dictInsert m1 ("src/index.css".data) (cleanBody (getCap caps 1))
  | none => m1

/-- The short-circuiting strategy chain: each strategy runs only if every
earlier one left `file_map` empty (`if not file_map:`, lines 537/550/577/
588/619). -/
def fileMapOf (t : List Char) : List (List Char × List Char) :=
  let m1 := buildS1Map (findFileTags t)
  if ¬m1.isEmpty then m1
  else
    let m2 := buildS2Map t
    if ¬m2.isEmpty then m2
    else
      let m3 := buildS3Map t
      if ¬m3.isEmpty then m3
      else
        let m4 := buildS4Map t
        if ¬m4.isEmpty then m4
        else
          let m5 := buildS5Map t
          if ¬m5.isEmpty then m5
          else buildS6Map t

/-- `extract_packages_from_code` (lines 498-519): ES-module import
specifiers, filtered and collapsed to root package names, de-duplicated in
order of first appearance. -/
def extract_packages_from_code (content : List Char) : List (List Char) :=
  (findAllCaps importPatApply content).foldl (fun pkgs caps =>
    let ip := getCap caps 1
    if ¬startsWithL (".".data) ip ∧ ¬startsWithL ("/".data) ip ∧
        ip ≠ "react".data ∧ ip ≠ "react-dom".data ∧ ¬startsWithL ("@/".data) ip then
      let name :=
        if startsWithL ("@".data) ip then
          joinWithChar '/' ((splitOnChar '/' ip).take 2)
        else (splitOnChar '/' ip).headD []
      if name ∈ pkgs then pkgs else pkgs ++ [name]
    else pkgs) []

/-- `re.split(r'[\n,]+', s)` followed by per-item `strip()` and dropping
empties (lines 669-672): splitting on each delimiter singly and filtering
empty items afterwards yields the same list. -/
def splitOnPred (p : Char → Bool) (l : List Char) : List (List Char) :=
  match l with
  | [] => [[]]
  | c :: t =>
    let r := splitOnPred p t
    if p c then [] :: r
    else
      match r with
      | [] => [[c]]
      | h :: t' => (c :: h) :: t'

/-- `parse_ai_response` (lines 484-696).  Total by construction; the only
operations of the source that can raise are `re` calls on valid patterns
and list operations guarded by emptiness checks, so the Python function is
total on `str` inputs as well. -/
def parse_ai_response (response : String) : Sections :=
  let t := response.data
  let fm := fileMapOf t
  let files := fm.map (fun kv => FileEdit.mk ⟨kv.1⟩ ⟨kv.2⟩)
  let pkgsFromFiles := fm.foldl (fun acc kv =>
    (extract_packages_from_code kv.2).foldl
      (fun a p => if p ∈ a then a else a ++ [p]) acc) []
  let cmds := (findAllCaps commandPat t).map (fun c => trimPy (getCap c 1))
  let pkgsTagged := (findAllCaps packagePat t).foldl (fun a c =>
    let p := trimPy (getCap c 1)
    if p ∈ a then a else a ++ [p]) pkgsFromFiles
  let pkgsAll :=
    match searchCaps packagesPat t with
    | some c =>
      let items := ((splitOnPred (fun ch => ch = '\n' || ch = ',')
        (trimPy (getCap c 1))).map trimPy).filter (fun (x : List Char) => ¬x.isEmpty)
      items.foldl (fun a p => if p ∈ a then a else a ++ [p]) pkgsTagged
    | none => pkgsTagged
  { files := files
    commands := cmds.map (fun c => (⟨c⟩ : String))
    packages := pkgsAll.map (fun c => (⟨c⟩ : String))
    structureText := (searchCaps structurePat t).map
      (fun c => (⟨trimPy (getCap c 1)⟩ : String))
    explanation :=
      match searchCaps explanationPat t with
      | some c => (⟨trimPy (getCap c 1)⟩ : String)
      | none => ""
    template :=
      match searchCaps templatePat t with
      | some c => (⟨trimPy (getCap c 1)⟩ : String)
      | none => "" }

/-! ## The per-file validators -/

/-- Characters kept by `re.sub(r'[^\x20-\x7E\n\t\r]', '', content)`
(apply_ai_code_stream.py line 128). -/
def printableOK (c : Char) : Bool :=
  (' ' ≤ c && c ≤ '~') || c = '\n' || c = '\t' || c = '\r'

/-- Python `lines.insert(i, x)` (appends when `i` exceeds the length). -/
def pyInsert (n : Nat) (x : List Char) (ls : List (List Char)) : List (List Char) :=
  ls.take n ++ [x] ++ ls.drop n

/-- The `import_end` loop of apply_ai_code_stream.py lines 103-108: index
one past the last leading import line (blank lines may intervene). -/
def importEndIdx : Nat → Nat → List (List Char) → Nat
  | _, acc, [] => acc
  | i, acc, l :: rest =>
    if startsWithL ("import".data) (trimPy l) then importEndIdx (i + 1) (i + 1) rest
    else if ¬(trimPy l).isEmpty then acc
    else importEndIdx (i + 1) acc rest

/-- Lines 99-112: inject a React import when `import React` is absent but a
`function `/`const ` declaration is present. -/
def reactImportFixApply (c : List Char) : List Char :=
  if ¬containsSub ("import React".data) c ∧
      (containsSub ("function ".data) c ∨ containsSub ("const ".data) c) then
    if startsWithL ("import".data) (trimPy c) then
      let lines := splitOnChar '\n' c
      joinWithChar '\n' (pyInsert (importEndIdx 0 0 lines) ("import React from 'react'".data) lines)
    else ("import React from 'react'\n\n".data) ++ c
  else c

/-- Lines 115-121: synthesize a default export from the first
`function`/`const` declaration name. -/
def exportDefaultFixApply (c : List Char) : List Char :=
  if ¬containsSub ("export default".data) c then
    match searchCaps funcNamePatApply c with
    | some caps =>
      let name := getCap caps 1
      if ¬endsWithL ("export default ".data ++ name) (trimPy c) then
        rstripPy c ++ ("\n\nexport default ".data) ++ name
      else c
    | none => c
  else c

/-- `sanitize_and_validate_jsx` (apply_ai_code_stream.py lines 75-130).
Step 1's encode/decode round trip is the identity; step 2 repeats the
replacement table of `sanitize_content_for_utf8` verbatim, so it is
`sanitizeL`; the `className` substitution of line 125 rewrites every match
to itself and is therefore the identity. -/
def sanitize_and_validate_jsx (content : List Char) (filePath : List Char) : List Char :=
  let c := sanitizeL content
  if endsWithL (".jsx".data) filePath then
    (exportDefaultFixApply (reactImportFixApply c)).filter printableOK
  else c

/-- `validate_jsx_syntax` (generate_ai_stream.py lines 1238-1263), named
`validate_jsx` here.  The `className` substitution of line 1242 rewrites
every match to itself (identity); the React import is inserted after the
first `import…;` statement via `re.sub(..., count=1)`. -/
def validate_jsx (content : List Char) (filePath : List Char) : List Char :=
  let c :=
    if endsWithL (".jsx".data) filePath ∧ ¬containsSub ("import React".data) content then
      if containsSub ("import".data) content then
        subFirstAfter importStmtPat ("\nimport React from \"react\"".data) content
      else ("import React from \"react\"\n\n".data) ++ content
    else content
  if endsWithL (".jsx".data) filePath ∧ ¬containsSub ("export default".data) c then
    match searchCaps funcNamePatGen c with
    | some caps =>
      let name := getCap caps 1
      if ¬containsSub ("export default ".data ++ name) c then
        c ++ ("\n\nexport default ".data) ++ name
      else c
    | none => c
  else c

/-! ## The Change-Set Applier (`event_stream`, apply_ai_code_stream.py
lines 808-1150)

The remote sandbox is abstracted by a write oracle `w : String → Bool`
giving the outcome of the write-and-verify snippet of lines 978-1031 for a
normalized path, an `installOut` transcript for the package-install
snippet, a `cacheFiles` outcome for the file-enumeration collaborator and
a `reloadOk` outcome for the Vite restart.  The module-global
`existing_files` set is the `known` component of the state. -/

structure Results where
  filesCreated : List String
  filesUpdated : List String
  packagesInstalled : List String
  packagesAlreadyInstalled : List String
  packagesFailed : List String
  commandsExecuted : List String
  errors : List String
deriving Repr, DecidableEq

def Results.empty : Results := ⟨[], [], [], [], [], [], []⟩

inductive Event where
  | cleanup (message : String) (removedFiles : List String)
  | start (message : String)
  | step (label message : String)
  | fileProgress (current total : Nat) (fileName action : String)
  | fileComplete (fileName action : String)
  | success (message : String)
  | warning (message : String)
  | error (message : String)
  | complete (results : Results) (explanation : String)
      (structureText : Option String) (message : String)
deriving Repr, DecidableEq

structure ApplyState where
  known : List String
  results : Results
  events : List Event
  /-- number of write snippets dispatched through the execution channel. -/
  writes : Nat
deriving Repr, DecidableEq

/-- `(existing_files or set()).add(fpath)` (line 1039): when the set is
empty, `existing_files or set()` evaluates to a fresh set and the insertion
is lost; only a non-empty set is actually mutated. -/
def addKnown (known : List String) (p : String) : List String :=
  if known.isEmpty then known
  else if p ∈ known then known
  else known ++ [p]

def configFiles : List (List Char) :=
  [("tailwind.config.js".data), ("vite.config.js".data), ("package.json".data),
   ("package-lock.json".data), ("tsconfig.json".data), ("postcss.config.js".data)]

/-- `re.search(r"\.(jsx?|tsx?)$", p)` as a suffix test. -/
def hasScriptExt (p : List Char) : Bool :=
  endsWithL (".js".data) p || endsWithL (".jsx".data) p ||
  endsWithL (".ts".data) p || endsWithL (".tsx".data) p

/-- Line 947-948: strip one leading path separator. -/
def stripSlash (fp : List Char) : List Char :=
  if startsWithL ("/".data) fp then fp.drop 1 else fp

/-- Lines 959-960: root unrooted paths under the source tree. -/
def rootSrc (fp : List Char) : List Char :=
  if ¬(startsWithL ("src/".data) fp ∨ startsWithL ("public/".data) fp ∨
      fp = "index.html".data) then
    "src/".data ++ fp
  else fp

/-- The normalized path the applier writes a FileEdit to. -/
def normOf (f : FileEdit) : List Char :=
  rootSrc (stripSlash (trimPy f.path.data))

/-- Line 950: the path's base name, checked against the config-file skip
list. -/
def baseOf (f : FileEdit) : List Char :=
  ((splitOnChar '/' (stripSlash (trimPy f.path.data))).getLast?).getD []

/-- A FileEdit the loop fully processes: non-blank path and content, and
not one of the environment-owned config files. -/
@[reducible] def processable (f : FileEdit) : Prop :=
  ¬(trimPy f.path.data).isEmpty ∧ ¬f.content.data.isEmpty ∧ baseOf f ∉ configFiles

/-- The content actually written for a normalized path (lines 962-966):
script files first have duplicated local stylesheet imports stripped, then
everything runs through `sanitize_and_validate_jsx`. -/
def applyTransformContent (fp2 fc0 : List Char) : List Char :=
  sanitize_and_validate_jsx
    (if hasScriptExt fp2 then reSubDeleteAll cssImportPat fc0 else fc0) fp2

/-- One iteration of the per-file loop (lines 928-1057).  The body's
`try/except` cannot fire in the model (all embedded operations are total),
and `json.dumps` of the content only raises on lone surrogates, which a
Lean `String` cannot contain. -/
def applyStep (w : String → Bool) (total : Nat) (st : ApplyState) (idx : Nat)
    (f : FileEdit) : ApplyState :=
  let fp0 := trimPy f.path.data
  let fc0 := f.content.data
  if fp0.isEmpty ∨ fc0.isEmpty then st
  else
    let ev1 := st.events ++ [.fileProgress (idx + 1) total ⟨fp0⟩ "creating"]
    let fp1 := stripSlash fp0
    let base := ((splitOnChar '/' fp1).getLast?).getD []
    if base ∈ configFiles then { st with events := ev1 }
    else
      let fp2 := rootSrc fp1
      let _written := applyTransformContent fp2 fc0
      let isUpd := (⟨fp2⟩ : String) ∈ st.known
      if w ⟨fp2⟩ then
        if isUpd then
          { known := st.known
            results := { st.results with
              filesUpdated := st.results.filesUpdated ++ [(⟨fp2⟩ : String)] }
            events := ev1 ++ [.fileComplete ⟨fp2⟩ "updated"]
            writes := st.writes + 1 }
        else
          { known := addKnown st.known ⟨fp2⟩
            results := { st.results with
              filesCreated := st.results.filesCreated ++ [(⟨fp2⟩ : String)] }
            events := ev1 ++ [.fileComplete ⟨fp2⟩ "created"]
            writes := st.writes + 1 }
      else
        { known := st.known
          results := { st.results with
            errors := st.results.errors ++ [(⟨"Failed to write ".data ++ fp2⟩ : String)] }
          events := ev1
          writes := st.writes + 1 }

def applyFilesAux (w : String → Bool) (total : Nat) :
    ApplyState → Nat → List FileEdit → ApplyState
  | st, _, [] => st
  | st, idx, f :: rest => applyFilesAux w total (applyStep w total st idx f) (idx + 1) rest

def joinSep (sep : List Char) : List (List Char) → List Char
  | [] => []
  | [x] => x
  | x :: y :: t => x ++ sep ++ joinSep sep (y :: t)

/-- The streamed pipeline of `event_stream` after parsing: cleanup notice,
start, optional batch package install, the per-file loop, then (only if
something changed) cache refresh and a single Vite restart, and finally the
`complete` event. -/
def eventStream (parsed : Sections) (packagesIn : List String)
    (cleanupRemoved : List String) (installOut : String) (w : String → Bool)
    (cacheFiles : Option Nat) (reloadOk : Bool) (known0 : List String) :
    ApplyState :=
  let ev0 : List Event :=
    if cleanupRemoved.length > 0 then
      [.cleanup ⟨"Cleaned ".data ++ (toString cleanupRemoved.length).data ++
        " old component files for fresh start".data⟩ cleanupRemoved]
    else []
  let ev1 := ev0 ++ [.start "Starting code application with FIXED parsing..."]
  let allPkgs := packagesIn ++ parsed.packages
  let uniquePkgs := allPkgs.foldl (fun acc p =>
    let p' : String := ⟨trimPy p.data⟩
    if p' = "" ∨ p' = "react" ∨ p' = "react-dom" then acc
    else if p' ∈ acc then acc else acc ++ [p']) []
  let ev2 :=
    if ¬uniquePkgs.isEmpty then
      ev1 ++ [.step "1.5" ⟨"Installing ".data ++ (toString uniquePkgs.length).data ++
          " required packages...".data⟩] ++
        (if containsSub ("SUCCESS: Packages installed".data) installOut.data then
          [Event.success ⟨"Successfully installed: ".data ++
            joinSep (", ".data) (uniquePkgs.map String.data)⟩]
        else [Event.warning "Package installation had issues"])
    else ev1
  let files := parsed.files
  let ev3 := ev2 ++ [.step "2" ⟨"Creating ".data ++ (toString files.length).data ++
    " files with FIXED parsing...".data⟩]
  let st1 := applyFilesAux w files.length
    { known := known0, results := Results.empty, events := ev3, writes := 0 } 0 files
  let changed := ¬st1.results.filesCreated.isEmpty ∨ ¬st1.results.filesUpdated.isEmpty
  let st2 :=
    if changed then
      { st1 with events := st1.events ++
          ([.step "3" "Updating file cache for future edits..."] ++
            (match cacheFiles with
             | some n => [Event.success ⟨"File cache updated with ".data ++
                 (toString n).data ++ " files - ready for edits".data⟩]
             | none => [Event.warning "File cache update failed - edits may not work"]) ++
          [.step "4" "Restarting Vite to reflect all changes..."] ++
            (if reloadOk then [Event.success "Vite restarted - changes should be visible"]
             else [Event.warning "Vite restart failed - try manual refresh"])) }
    else st1
  { st2 with events := st2.events ++
      [.complete st2.results parsed.explanation parsed.structureText
        ⟨"Successfully applied ".data ++
          (toString (st2.results.filesCreated.length + st2.results.filesUpdated.length)).data ++
          " files!".data⟩] }

inductive PostOutcome where
  | errorResponse (status : Nat) (message : String)
  | streamResponse (final : ApplyState)
deriving Repr, DecidableEq

/-- The `POST` handler (lines 702-806): empty response → 400; parsing
(`parse_ai_response` is total, so its `except` branch returning 500 is
unreachable); missing sandbox → an error payload; otherwise the SSE
stream. -/
def POSTmodel (response : String) (packagesIn : List String)
    (sandboxAvailable : Bool) (cleanupRemoved : List String)
    (installOut : String) (w : String → Bool) (cacheFiles : Option Nat)
    (reloadOk : Bool) (known0 : List String) : PostOutcome :=
  if response = "" then .errorResponse 400 "response is required"
  else
    let parsed := parse_ai_response response
    if ¬sandboxAvailable then .errorResponse 200 "No active sandbox found"
    else .streamResponse
      (eventStream parsed packagesIn cleanupRemoved installOut w cacheFiles reloadOk known0)

def isRequestFailure : PostOutcome → Bool
  | .errorResponse _ _ => true
  | .streamResponse _ => false

/-! ## The execution channel (`_run_in_sandbox`)

apply_ai_code_stream.py lines 219-272 and restart_vite.py lines 16-40.
A sandbox object is its method table; a method call either returns a value
or raises.  `PyCall` distinguishes a function returning normally from one
propagating an exception.  The LangChain/LangGraph wrapping in the apply
route forwards the payload to `_runner` unchanged and is not represented. -/

inductive ExecOutcome where
  | ok (val : String)
  | raise (msg : String)
deriving Repr, DecidableEq

structure PySandbox where
  methods : List (String × (String → ExecOutcome))

inductive PyCall (α : Type) where
  | ret (a : α)
  | exn (msg : String)
deriving Repr, DecidableEq

/-- The `hasattr` scan over candidate method names. -/
def findMethod (sb : PySandbox) : List String → Option (String → ExecOutcome)
  | [] => none
  | n :: rest =>
    match sb.methods.find? (fun m => m.1 = n) with
    | some m => some m.2
    | none => findMethod sb rest

structure RunResult where
  output : String
  success : Bool
  errorMsg : Option String
  resultVal : Option String
deriving Repr, DecidableEq

/-- `_run_in_sandbox` of the apply route (lines 219-272): a missing method
raises `RuntimeError` *outside* the `try`, and so propagates; an exception
from the method itself is caught and becomes a `success = False` dict (the
`result.wait()` finalizer swallows its own errors). -/
def apply_run_in_sandbox (sb : PySandbox) (code : String) : PyCall RunResult :=
  match findMethod sb ["run_code", "runCode", "run", "exec"] with
  | none => .exn "Sandbox missing execution methods: ['run_code', 'runCode', 'run', 'exec']"
  | some f =>
    match f code with
    | .ok v => .ret { output := "", success := true, errorMsg := none, resultVal := some v }
    | .raise m => .ret
        { output := ⟨"Error: ".data ++ m.data⟩
          success := false
          errorMsg := some m
          resultVal := none }

/-- `_run_in_sandbox` of restart_vite.py (lines 16-40): a missing method
raises, and `res = exec_method(code)` is not wrapped in any `try`, so an
exception from the method also propagates (only the optional
`wait/result/join/done` finalizers swallow errors). -/
def restart_run_in_sandbox (sb : PySandbox) (code : String) : PyCall String :=
  match findMethod sb ["run_code", "runCode", "execute", "exec", "run"] with
  | none => .exn "Sandbox has no compatible code execution method"
  | some f =>
    match f code with
    | .ok v => .ret v
    | .raise m => .exn m

/-! ## The detect-and-install package reconciler
(detect-and_install_packages.py lines 131-184) -/

def builtinsNode : List (List Char) :=
  [("fs".data), ("path".data), ("http".data), ("https".data), ("crypto".data),
   ("stream".data), ("util".data), ("os".data), ("url".data),
   ("querystring".data), ("child_process".data)]

/-- Lines 132-150: all ESM import and CJS require specifiers of the
script-like files.  Python collects them into a `set` (iteration order
unspecified); modeled as insertion-ordered de-duplication. -/
def scannedImports (files : List (String × String)) : List (List Char) :=
  files.foldl (fun acc kv =>
    if hasScriptExt kv.1.data then
      let ims := (findAllCaps importPatDetect kv.2.data).map (fun c => getCap c 1)
      let rqs := (findAllCaps requirePat kv.2.data).map (fun c => getCap c 1)
      (ims ++ rqs).foldl (fun a x => if x ∈ a then a else a ++ [x]) acc
    else acc) []

/-- Lines 172-181: collapse a specifier to its root package identifier. -/
def rootPackageName (pkg : List Char) : List Char :=
  if startsWithL ("@".data) pkg then joinWithChar '/' ((splitOnChar '/' pkg).take 2)
  else ((splitOnChar '/' pkg).headD [])

/-- Lines 159-184: the derived package-name list (`unique_packages`). -/
def derivePackages (files : List (String × String)) : List (List Char) :=
  let imports := scannedImports files
  let packages := imports.filter (fun imp =>
    ¬startsWithL (".".data) imp ∧ ¬startsWithL ("/".data) imp ∧ imp ∉ builtinsNode)
  pyDedup (packages.map rootPackageName)

/-- The pairs with non-empty cleaned bodies, carrying the cleaned bodies:
exactly the entries strategy 1 feeds into `file_map`. -/
def cleanEntriesOf (ms : List (List Char × List Char)) :
    List (List Char × List Char) :=
  ms.filterMap (fun pr =>
    if (cleanBody pr.2).isEmpty then none else some (pr.1, cleanBody pr.2))

/-- The well-formed tag pairs of a response with non-empty cleaned
bodies. -/
def s1CleanEntries (t : List Char) : List (List Char × List Char) :=
  cleanEntriesOf (findFileTags t)

/-- Concrete three-file Change Set for exercising the partial-failure
policy: the write of `c7B`'s normalized path is the only one that fails. -/
def c7A : FileEdit := ⟨"src/A.jsx", "const A = 1"⟩

def c7B : FileEdit := ⟨"components/B.jsx", "const B = 2"⟩

def c7C : FileEdit := ⟨"/src/C.jsx", "const C = 3"⟩

def c7w : String → Bool := fun p => decide (p ≠ "src/components/B.jsx")

/-- An input on which the sanitizer is *not* idempotent: replacing its one
junk-key occurrence by an apostrophe recreates the junk key, which only the
next pass then replaces. -/
def c9Junk : String :=
  ⟨(": \"".data) ++ junkKey ++ ("\",    # Left single quotation mark\n        ".data)⟩

def writesOf : PostOutcome → Nat
  | .errorResponse _ _ => 0
  | .streamResponse st => st.writes

/-- An entry file importing a component (`Footer`) that has no generated
file in its Change Set. -/
def c1Entry : String :=
  "import React from 'react'\nimport Footer from './components/Footer'\n\nconst App = () => null\n\nexport default App"

/-- A sandbox whose only execution method always raises. -/
def raisingMethod : String → ExecOutcome := fun _ => ExecOutcome.raise "boom"

def raisingSandbox : PySandbox := ⟨[("run_code", raisingMethod)]⟩

/-- `e` contains no capture group numbered 1. -/
def noGrp1 : Rx → Bool
  | .eps | .lit _ | .cls _ _ | .dot _ | .eos => true
  | .seq a b => noGrp1 a && noGrp1 b
  | .alt a b => noGrp1 a && noGrp1 b
  | .star _ e => noGrp1 e
  | .opt e => noGrp1 e
  | .look e => noGrp1 e
  | .grp n e => (n != 1) && noGrp1 e

/-- Syntactic guarantee that every match of `e` consumes at least one
character. -/
def consumesB : Rx → Bool
  | .lit _ => true
  | .cls _ _ => true
  | .dot _ => true
  | .eps => false
  | .eos => false
  | .seq a b => consumesB a || consumesB b
  | .alt a b => consumesB a && consumesB b
  | .star _ _ => false
  | .opt _ => false
  | .look _ => false
  | .grp _ e => consumesB e

/-- Syntactic guarantee that every match of `e` records a non-empty
capture for group 1, found first by `List.find?`. -/
def grp1ok : Rx → Bool
  | .seq a b => grp1ok a || (noGrp1 a && grp1ok b)
  | .alt a b => grp1ok a && grp1ok b
  | .grp n e => (n == 1) && consumesB e
  | .look e => grp1ok e
  | _ => false

/-! # Theorems -/

theorem mem_replaceCharWith {x old : Char} {new l : List Char}
    (h : x ∈ replaceCharWith old new l) : x ∈ new ∨ (x ∈ l ∧ x ≠ old) := by
  induction l with
  | nil => simp [replaceCharWith] at h
  | cons c t ih =>
    simp only [replaceCharWith, List.flatMap_cons] at h
    rcases List.mem_append.mp h with h1 | h2
    · by_cases hc : c = old
      · rw [if_pos hc] at h1; exact Or.inl h1
      · rw [if_neg hc] at h1
        simp only [List.mem_singleton] at h1
        subst h1
        exact Or.inr ⟨List.mem_cons_self _ _, hc⟩
    · rcases ih h2 with h3 | ⟨h4, h5⟩
      · exact Or.inl h3
      · exact Or.inr ⟨List.mem_cons_of_mem _ h4, h5⟩

theorem replaceCharWith_not_mem {old : Char} {new l : List Char}
    (h : old ∉ l) : replaceCharWith old new l = l := by
  induction l with
  | nil => rfl
  | cons c t ih =>
    simp only [List.mem_cons, not_or] at h
    simp only [replaceCharWith, List.flatMap_cons]
    rw [if_neg (fun he => h.1 he.symm)]
    have := ih h.2
    simp only [replaceCharWith] at this
    simp [this]

theorem not_mem_replaceCharWith_self {old : Char} {new l : List Char}
    (hn : old ∉ new) : old ∉ replaceCharWith old new l := by
  intro h
  rcases mem_replaceCharWith h with h1 | ⟨_, h2⟩
  · exact hn h1
  · exact h2 rfl

theorem not_mem_replaceCharWith_of_not_mem {x old : Char} {new l : List Char}
    (hl : x ∉ l) (hn : x ∉ new) : x ∉ replaceCharWith old new l := by
  intro h
  rcases mem_replaceCharWith h with h1 | ⟨h2, _⟩
  · exact hn h1
  · exact hl h2

/-- A `str.replace` pass whose needle does not occur is the identity. -/
theorem replaceSubF_eq_self_of_not_contains {old rep : List Char} :
    ∀ (f : Nat) (s : List Char), containsSub old s = false →
      replaceSubF old rep f s = s := by
  intro f
  induction f with
  | zero => intro s _; rfl
  | succ f ih =>
    intro s h
    cases s with
    | nil => rfl
    | cons c t =>
      unfold containsSub at h
      rw [Bool.or_eq_false_iff] at h
      unfold replaceSubF
      rw [if_neg (fun hcon => Bool.false_ne_true (h.1 ▸ hcon.1))]
      rw [ih t h.2]

theorem pyReplace_eq_self_of_not_contains {old rep s : List Char}
    (h : containsSub old s = false) : pyReplace old rep s = s :=
  replaceSubF_eq_self_of_not_contains s.length s h

theorem stripPre_length :
    ∀ {pre l r : List Char}, stripPre pre l = some r →
      r.length + pre.length = l.length := by
  intro pre
  induction pre with
  | nil =>
    intro l r h
    simp only [stripPre, Option.some.injEq] at h
    subst h
    simp
  | cons a as ih =>
    intro l r h
    cases l with
    | nil => exact absurd h (by simp [stripPre])
    | cons b bs =>
      unfold stripPre at h
      split at h
      · have := ih h
        simp only [List.length_cons]
        omega
      · exact absurd h (by simp)

theorem splitAtCloseTag_length {l b r : List Char}
    (h : splitAtCloseTag l = some (b, r)) : r.length + 7 ≤ l.length := by
  induction l generalizing b r with
  | nil => simp [splitAtCloseTag] at h
  | cons c t ih =>
    unfold splitAtCloseTag at h
    revert h
    cases hs : stripPre ("</file>".data) (c :: t) with
    | some r0 =>
      intro h
      simp only [Option.some.injEq, Prod.mk.injEq] at h
      obtain ⟨_, hr⟩ := h
      subst hr
      have := stripPre_length hs
      have h7 : ("</file>".data).length = 7 := rfl
      simp only [List.length_cons] at this ⊢
      omega
    | none =>
      intro h
      revert h
      cases hrec : splitAtCloseTag t with
      | none => intro h; exact absurd h (by simp)
      | some br =>
        intro h
        obtain ⟨b0, r0⟩ := br
        simp only [Option.some.injEq, Prod.mk.injEq] at h
        obtain ⟨_, hr⟩ := h
        subst hr
        have := ih hrec
        simp only [List.length_cons]
        omega

theorem matchFileTagAt_rest_lt {l p b rest : List Char}
    (h : matchFileTagAt l = some (p, b, rest)) : rest.length < l.length := by
  unfold matchFileTagAt at h
  revert h
  cases h1 : stripPre ("<file".data) l with
  | none => intro h; exact absurd h (by simp)
  | some r1 =>
    intro h
    simp only at h
    split at h
    · exact absurd h (by simp)
    · revert h
      cases h2 : stripPre ("path=\"".data) (r1.dropWhile isPyWs) with
      | none => intro h; exact absurd h (by simp)
      | some r3 =>
        intro h
        simp only at h
        split at h
        · exact absurd h (by simp)
        · revert h
          cases h3 : stripPre ("\">".data) (r3.dropWhile notDQ) with
          | none => intro h; exact absurd h (by simp)
          | some r5 =>
            intro h
            simp only at h
            revert h
            cases h4 : splitAtCloseTag r5 with
            | none => intro h; exact absurd h (by simp)
            | some br =>
              intro h
              obtain ⟨b2, rest2⟩ := br
              simp only [Option.some.injEq, Prod.mk.injEq] at h
              obtain ⟨_, _, hr⟩ := h
              subst hr
              have e1 := stripPre_length h1
              have e2 := stripPre_length h2
              have e3 := stripPre_length h3
              have e4 := splitAtCloseTag_length h4
              have n1 : ("<file".data).length = 5 := rfl
              have n2 : ("path=\"".data).length = 6 := rfl
              have n3 : ("\">".data).length = 2 := rfl
              have d1 : (r1.dropWhile isPyWs).length ≤ r1.length :=
                (List.dropWhile_sublist _).length_le
              have d2 : (r3.dropWhile notDQ).length ≤ r3.length :=
                (List.dropWhile_sublist _).length_le
              omega

theorem findFileTagsF_fuel_irrel :
    ∀ f₁ : Nat, ∀ l : List Char, ∀ f₂ : Nat, l.length ≤ f₁ → l.length ≤ f₂ →
      findFileTagsF f₁ l = findFileTagsF f₂ l := by
  intro f₁
  induction f₁ with
  | zero =>
    intro l f₂ h1 _
    have : l = [] := List.length_eq_zero.mp (Nat.le_zero.mp h1)
    subst this
    cases f₂ <;> rfl
  | succ f ih =>
    intro l f₂ h1 h2
    cases l with
    | nil => cases f₂ <;> rfl
    | cons c t =>
      cases f₂ with
      | zero => exact absurd h2 (by simp)
      | succ f₂' =>
        show findFileTagsF (f + 1) (c :: t) = findFileTagsF (f₂' + 1) (c :: t)
        unfold findFileTagsF
        cases hm : matchFileTagAt (c :: t) with
        | none =>
          simp only
          exact ih t f₂' (by simpa using h1) (by simpa using h2)
        | some pbr =>
          obtain ⟨p, b, rest⟩ := pbr
          simp only
          have hlt := matchFileTagAt_rest_lt hm
          simp only [List.length_cons] at h1 h2 hlt
          rw [ih rest f₂' (by omega) (by omega)]

/-- The one-step unfolding of the scan, independent of fuel. -/
theorem findFileTags_cons (c : Char) (t : List Char) :
    findFileTags (c :: t) =
      match matchFileTagAt (c :: t) with
      | some (p, b, rest) => (p, b) :: findFileTags rest
      | none => findFileTags t := by
  show findFileTagsF (t.length + 1) (c :: t) = _
  unfold findFileTagsF
  cases hm : matchFileTagAt (c :: t) with
  | none => rfl
  | some pbr =>
    obtain ⟨p, b, rest⟩ := pbr
    simp only
    have hlt := matchFileTagAt_rest_lt hm
    simp only [List.length_cons] at hlt
    rw [findFileTagsF_fuel_irrel t.length rest rest.length (by omega) (by omega)]
    rfl

/-! # Theorems -/

theorem sanitizeL_eq_self {c : List Char}
    (hJ : containsSub junkKey c = false)
    (h13 : '\u2013' ∉ c) (h14 : '\u2014' ∉ c) (h26 : '\u2026' ∉ c) :
    sanitizeL c = c := by
  unfold sanitizeL
  rw [pyReplace_eq_self_of_not_contains hJ, replaceCharWith_not_mem h13,
      replaceCharWith_not_mem h14, replaceCharWith_not_mem h26]

/-- C9 counterexample: the sanitizer is not idempotent.  The source's
replacement table only really replaces the accidental triple-quoted junk
key (by an apostrophe) and the en/em dashes and ellipsis; on this input the
junk-key replacement recreates the key, so a second pass changes the result
again (first pass: the junk key itself; second pass: a lone apostrophe). -/
theorem c9_counterexample :
    sanitize_content_for_utf8 c9Junk = ⟨junkKey⟩ ∧
    sanitize_content_for_utf8 (sanitize_content_for_utf8 c9Junk) = "'" ∧
    sanitize_content_for_utf8 (sanitize_content_for_utf8 c9Junk) ≠
      sanitize_content_for_utf8 c9Junk := by
  refine ⟨by decide, by decide, by decide⟩

/-- C9 amended: the sanitizer (whose only non-identity entries, as the
source bytes stand, are junk key to apostrophe, en dash to `-`, em dash to
`--` and ellipsis to `...`) is idempotent on every string whose sanitized
form does not contain the junk key; the dash and ellipsis passes can never
re-create their targets, so only a re-created junk key (see the
counterexample) breaks idempotence. -/
theorem c9_sanitize_idempotent_no_junk (x : String)
    (h : containsSub junkKey (sanitize_content_for_utf8 x).data = false) :
    sanitize_content_for_utf8 (sanitize_content_for_utf8 x) =
      sanitize_content_for_utf8 x := by
  have h26 : '\u2026' ∉ sanitizeL x.data :=
    not_mem_replaceCharWith_self (by decide)
  have h14 : '\u2014' ∉ sanitizeL x.data :=
    not_mem_replaceCharWith_of_not_mem
      (not_mem_replaceCharWith_self (by decide)) (by decide)
  have h13 : '\u2013' ∉ sanitizeL x.data :=
    not_mem_replaceCharWith_of_not_mem
      (not_mem_replaceCharWith_of_not_mem
        (not_mem_replaceCharWith_self (by decide)) (by decide)) (by decide)
  exact congrArg (fun l => (⟨l⟩ : String))
    (sanitizeL_eq_self h h13 h14 h26)

/-- Witness: on an input whose sanitized form is junk-key free, a second
pass changes nothing. -/
theorem c9_witness :
    containsSub junkKey
      (sanitize_content_for_utf8 "let x = a \u2013 b; // \u2026").data = false ∧
    sanitize_content_for_utf8
        (sanitize_content_for_utf8 "let x = a \u2013 b; // \u2026") =
      sanitize_content_for_utf8 "let x = a \u2013 b; // \u2026" :=
  ⟨by decide, c9_sanitize_idempotent_no_junk "let x = a \u2013 b; // \u2026" (by decide)⟩

/-- C4 counterexample: the claim says the execution channel never
propagates an exception and converts any transport exception into a
failure result.  In restart_vite.py's `_run_in_sandbox` the call
`res = exec_method(code)` is not guarded, so a sandbox whose `run_code`
method raises makes the channel itself raise: the exception propagates to
the caller instead of becoming a result value. -/
theorem c4_counterexample :
    restart_run_in_sandbox
      ⟨[("run_code", fun _ => ExecOutcome.raise "ConnectionError: connection closed")]⟩
      "print(1)" =
      PyCall.exn "ConnectionError: connection closed" := rfl

/-- C4 amended: the apply-route channel `_run_in_sandbox` returns a value
(never raises) whenever the sandbox exposes one of the recognized
execution methods; an exception raised by the method is caught and becomes
a result with `success = False` and the error message (there is no exit
code in the result), and a normal return becomes `success = True`.  (A
sandbox with no recognized method makes the apply channel raise, and the
restart-route channel propagates both missing-method errors and method
exceptions.) -/
theorem c4_apply_channel_returns (sb : PySandbox) (code : String)
    (f : String → ExecOutcome)
    (h : findMethod sb ["run_code", "runCode", "run", "exec"] = some f) :
    ∃ r : RunResult, apply_run_in_sandbox sb code = .ret r ∧
      (∀ m, f code = .raise m → r.success = false ∧ r.errorMsg = some m) ∧
      (∀ v, f code = .ok v → r.success = true) := by
  cases hf : f code with
  | ok v =>
    refine ⟨{ output := "", success := true, errorMsg := none, resultVal := some v },
      ?_, ?_, ?_⟩
    · simp only [apply_run_in_sandbox, h, hf]
    · intro m hm; exact absurd hm (by simp)
    · intro _ _; rfl
  | raise m =>
    refine ⟨{ output := ⟨"Error: ".data ++ m.data⟩
              success := false
              errorMsg := some m
              resultVal := none }, ?_, ?_, ?_⟩
    · simp only [apply_run_in_sandbox, h, hf]
    · intro m' hm
      cases hm
      exact ⟨rfl, rfl⟩
    · intro v hv; exact absurd hv (by simp)

theorem c4_witness :
    ∃ r : RunResult, apply_run_in_sandbox raisingSandbox "print(1)" = .ret r ∧
      (∀ m, raisingMethod "print(1)" = .raise m → r.success = false ∧ r.errorMsg = some m) ∧
      (∀ v, raisingMethod "print(1)" = .ok v → r.success = true) :=
  c4_apply_channel_returns raisingSandbox "print(1)" raisingMethod rfl

/-- C5 counterexample: the claim says the parser returns exactly as many
FileEdits as there are well-formed `<file>` pairs.  On a response with two
well-formed pairs sharing the same path, the parser's path-keyed
`file_map` collapses them: two pairs, one FileEdit (the later body
wins). -/
theorem c5_counterexample :
    (findFileTags ("<file path=\"a\">x</file><file path=\"a\">y</file>").data).length = 2 ∧
    (parse_ai_response "<file path=\"a\">x</file><file path=\"a\">y</file>").files =
      [⟨"a", "y"⟩] := by
  constructor
  · rfl
  · rfl

/-- C8 counterexample: the claim says the derived dependency set discards
the base UI-runtime package.  The detect-and-install reconciler's builtin
filter does not contain `react`, so a file importing it yields `react` in
the derived list (while the platform builtin `fs`, pulled in via
`require`, is discarded). -/
theorem c8_counterexample :
    ("react".data) ∈
      derivePackages [("App.jsx", "import React from 'react'\nconst fs = require('fs')")] ∧
    ("fs".data) ∉
      derivePackages [("App.jsx", "import React from 'react'\nconst fs = require('fs')")] := by
  constructor
  · decide
  · decide

/-- C1 counterexample: the claim says that after validation every
generated-components import of the entry file resolves within the Change
Set, dangling imports being removed together with a warning naming the
component.  For the Change Set containing only `c1Entry` (which imports
`./components/Footer`, while no Footer file exists), the content the
applier writes for the entry file still contains the dangling import, the
generate-route validator also leaves it in place, and the stream carries
no warning naming the component: nothing is removed. -/
theorem c1_counterexample :
    containsSub ("./components/Footer".data)
      (applyTransformContent ("src/App.jsx".data) c1Entry.data) = true ∧
    containsSub ("./components/Footer".data)
      (validate_jsx c1Entry.data ("src/App.jsx".data)) = true ∧
    ((eventStream ⟨[⟨"src/App.jsx", c1Entry⟩], [], [], none, "", ""⟩ [] [] ""
        (fun _ => true) (some 1) true []).events.all
      (fun e =>
        match e with
        | .warning m => !containsSub ("Footer".data) m.data
        | _ => true)) = true := by
  refine ⟨by decide, by decide, by decide⟩

/-- C1 amended: the per-file validators never remove imports.  On content
that already has a React import and a default export, consists of
printable-ASCII characters, and does not contain the sanitizer's
accidental triple-quoted junk key, both validators are the identity — in
particular an entry-file import of a generated component with no
corresponding file in the Change Set survives validation untouched, and no
warning naming it is recorded anywhere. -/
theorem c1_validators_preserve (c p : List Char)
    (hjsx : endsWithL (".jsx".data) p = true)
    (hR : containsSub ("import React".data) c = true)
    (hE : containsSub ("export default".data) c = true)
    (hJ : containsSub junkKey c = false)
    (hP : ∀ ch ∈ c, printableOK ch = true) :
    sanitize_and_validate_jsx c p = c ∧ validate_jsx c p = c := by
  have h13 : '\u2013' ∉ c := fun hm => absurd (hP _ hm) (by decide)
  have h14 : '\u2014' ∉ c := fun hm => absurd (hP _ hm) (by decide)
  have h26 : '\u2026' ∉ c := fun hm => absurd (hP _ hm) (by decide)
  have hclean : sanitizeL c = c := sanitizeL_eq_self hJ h13 h14 h26
  constructor
  · unfold sanitize_and_validate_jsx
    rw [hclean, if_pos hjsx]
    unfold reactImportFixApply
    rw [if_neg (fun hcon => hcon.1 hR)]
    unfold exportDefaultFixApply
    rw [if_neg (fun hcon => hcon hE)]
    exact List.filter_eq_self.mpr hP
  · unfold validate_jsx
    have h1 : ¬(endsWithL (".jsx".data) p = true ∧
        ¬containsSub ("import React".data) c = true) := fun hcon => hcon.2 hR
    rw [if_neg h1]
    have h2 : ¬(endsWithL (".jsx".data) p = true ∧
        ¬containsSub ("export default".data) c = true) := fun hcon => hcon.2 hE
    rw [if_neg h2]

theorem c1_witness :
    sanitize_and_validate_jsx c1Entry.data ("src/App.jsx".data) = c1Entry.data ∧
    validate_jsx c1Entry.data ("src/App.jsx".data) = c1Entry.data :=
  c1_validators_preserve c1Entry.data ("src/App.jsx".data) (by decide) (by decide)
    (by decide) (by decide) (by decide)

/-- C2 (evaluation at the failing input): applying the same one-file
ChangeSet twice against a session whose known-file set starts empty
classifies the file as `created` both times.  The insertion
`(existing_files or set()).add(fpath)` (line 1039) mutates a *fresh* set
whenever the session set is empty, so the created path never joins the
session's known files and the second application repeats `created`
instead of the claimed `updated`. -/
theorem c2_second_apply_created :
    (eventStream ⟨[⟨"src/App.jsx", "const App = () => null"⟩], [], [], none, "", ""⟩
        [] [] "" (fun _ => true) (some 1) true []).results.filesCreated =
      ["src/App.jsx"] ∧
    (eventStream ⟨[⟨"src/App.jsx", "const App = () => null"⟩], [], [], none, "", ""⟩
        [] [] "" (fun _ => true) (some 1) true []).known = [] ∧
    (eventStream ⟨[⟨"src/App.jsx", "const App = () => null"⟩], [], [], none, "", ""⟩
        [] [] "" (fun _ => true) (some 1) true
        (eventStream ⟨[⟨"src/App.jsx", "const App = () => null"⟩], [], [], none, "", ""⟩
          [] [] "" (fun _ => true) (some 1) true []).known).results.filesCreated =
      ["src/App.jsx"] ∧
    (eventStream ⟨[⟨"src/App.jsx", "const App = () => null"⟩], [], [], none, "", ""⟩
        [] [] "" (fun _ => true) (some 1) true
        (eventStream ⟨[⟨"src/App.jsx", "const App = () => null"⟩], [], [], none, "", ""⟩
          [] [] "" (fun _ => true) (some 1) true []).known).results.filesUpdated = [] := by
  refine ⟨by decide, by decide, by decide, by decide⟩

theorem foldl_dedup_nodup (l : List (List Char)) :
    ∀ acc : List (List Char), acc.Nodup →
      (l.foldl (fun acc x => if x ∈ acc then acc else acc ++ [x]) acc).Nodup := by
  induction l with
  | nil => intro acc h; exact h
  | cons x t ih =>
    intro acc h
    simp only [List.foldl_cons]
    by_cases hx : x ∈ acc
    · rw [if_pos hx]; exact ih acc h
    · rw [if_neg hx]
      exact ih _ (by simp [List.nodup_append, h, hx])

theorem mem_foldl_dedup {x : List Char} (l : List (List Char)) :
    ∀ acc, x ∈ l.foldl (fun acc y => if y ∈ acc then acc else acc ++ [y]) acc →
      x ∈ acc ∨ x ∈ l := by
  induction l with
  | nil => intro acc h; exact Or.inl h
  | cons y t ih =>
    intro acc h
    simp only [List.foldl_cons] at h
    by_cases hy : y ∈ acc
    · rw [if_pos hy] at h
      rcases ih acc h with h1 | h1
      · exact Or.inl h1
      · exact Or.inr (List.mem_cons_of_mem _ h1)
    · rw [if_neg hy] at h
      rcases ih _ h with h1 | h1
      · rcases List.mem_append.mp h1 with h2 | h2
        · exact Or.inl h2
        · simp only [List.mem_singleton] at h2
          exact Or.inr (h2 ▸ List.mem_cons_self _ _)
      · exact Or.inr (List.mem_cons_of_mem _ h1)

theorem pyDedup_nodup (l : List (List Char)) : (pyDedup l).Nodup :=
  foldl_dedup_nodup l [] (by simp)

theorem mem_pyDedup {x : List Char} {l : List (List Char)} (h : x ∈ pyDedup l) :
    x ∈ l := by
  rcases mem_foldl_dedup l [] h with h1 | h1
  · exact absurd h1 (by simp)
  · exact h1

/-- C8 amended: the detect-and-install reconciler's derived package list
has no duplicates, and every element is the root package identifier of
some scanned specifier (ESM import or CJS require) that is neither a
relative nor an absolute path nor a known platform builtin.  The list is
*not* guaranteed to exclude the base UI-runtime package: `react` is not in
the builtin set (see the counterexample); the apply-route extractor
`extract_packages_from_code`, by contrast, discards `react`/`react-dom`
and alias paths but scans only ESM imports and keeps platform builtins. -/
theorem c8_reconciler_shape (files : List (String × String)) (q : List Char)
    (hq : q ∈ derivePackages files) :
    (derivePackages files).Nodup ∧
    ∃ imp, imp ∈ scannedImports files ∧
      ¬startsWithL (".".data) imp ∧ ¬startsWithL ("/".data) imp ∧
      imp ∉ builtinsNode ∧ q = rootPackageName imp := by
  refine ⟨pyDedup_nodup _, ?_⟩
  simp only [derivePackages] at hq
  have h1 := mem_pyDedup hq
  simp only [List.mem_map] at h1
  obtain ⟨pkg, hpkg, hroot⟩ := h1
  rw [List.mem_filter] at hpkg
  obtain ⟨hmem, hp⟩ := hpkg
  simp only [decide_eq_true_eq] at hp
  exact ⟨pkg, hmem, hp.1, hp.2.1, hp.2.2, hroot.symm⟩

theorem c8_witness :
    (derivePackages [("App.jsx", "import axios from 'axios'")]).Nodup ∧
    ∃ imp, imp ∈ scannedImports [("App.jsx", "import axios from 'axios'")] ∧
      ¬startsWithL (".".data) imp ∧ ¬startsWithL ("/".data) imp ∧
      imp ∉ builtinsNode ∧ ("axios".data) = rootPackageName imp :=
  c8_reconciler_shape [("App.jsx", "import axios from 'axios'")] ("axios".data)
    (by decide)

theorem getLast?_append_singleton {α : Type} (l : List α) (a : α) :
    (l ++ [a]).getLast? = some a := by
  induction l with
  | nil => rfl
  | cons c t ih =>
    rw [List.cons_append, List.getLast?_cons]
    simp [ih]

/-- C3 counterexample: the claim says a response yielding zero files fails
the whole request immediately.  For the response `"hello"` every strategy
yields zero files, yet the request does not fail: POST returns the event
stream (not an error response), no file write is dispatched, and the
stream ends with a `complete` event carrying empty results. -/
theorem c3_counterexample :
    (parse_ai_response "hello").files = [] ∧
    isRequestFailure (POSTmodel "hello" [] true [] "" (fun _ => true) (some 1) true []) =
      false ∧
    writesOf (POSTmodel "hello" [] true [] "" (fun _ => true) (some 1) true []) = 0 ∧
    (eventStream (parse_ai_response "hello") [] [] "" (fun _ => true) (some 1) true
        []).events.getLast? =
      some (.complete Results.empty "" none "Successfully applied 0 files!") := by
  refine ⟨by decide, by decide, by decide, by decide⟩

theorem map_fst_update (m : List (Prod (List Char) (List Char))) (k v : List Char) :
    (m.map (fun kv => if kv.1 = k then (k, v) else kv)).map Prod.fst =
      m.map Prod.fst := by
  induction m with
  | nil => rfl
  | cons kv t ih =>
    simp only [List.map_cons]
    by_cases hk : kv.1 = k
    · rw [if_pos hk]
      simp [ih, hk]
    · rw [if_neg hk]
      simp [ih]

theorem dictInsert_fst (m : List (Prod (List Char) (List Char))) (k v : List Char) :
    (dictInsert m k v).map Prod.fst =
      if k ∈ m.map Prod.fst then m.map Prod.fst else m.map Prod.fst ++ [k] := by
  unfold dictInsert
  by_cases hk : k ∈ m.map Prod.fst
  · rw [if_pos hk, if_pos hk, map_fst_update]
  · rw [if_neg hk, if_neg hk]
    simp

theorem buildMapD_append_singleton (l : List (Prod (List Char) (List Char)))
    (pr : Prod (List Char) (List Char)) :
    buildMapD (l ++ [pr]) = dictInsert (buildMapD l) pr.1 pr.2 := by
  simp [buildMapD, List.foldl_append]

theorem pyDedup_append_singleton (l : List (List Char)) (x : List Char) :
    pyDedup (l ++ [x]) = if x ∈ pyDedup l then pyDedup l else pyDedup l ++ [x] := by
  simp [pyDedup, List.foldl_append]

theorem buildMapD_keys (l : List (Prod (List Char) (List Char))) :
    (buildMapD l).map Prod.fst = pyDedup (l.map Prod.fst) := by
  induction l using List.reverseRecOn with
  | nil => rfl
  | append_singleton l pr ih =>
    rw [buildMapD_append_singleton, dictInsert_fst, ih, List.map_append,
      List.map_singleton, pyDedup_append_singleton]

theorem lastAssoc_append_singleton (l : List (Prod (List Char) (List Char)))
    (pr : Prod (List Char) (List Char)) (k : List Char) :
    lastAssoc (l ++ [pr]) k =
      if pr.1 = k then some pr.2 else lastAssoc l k := by
  unfold lastAssoc
  rw [List.filter_append]
  by_cases h : pr.1 = k
  · simp [h, getLast?_append_singleton]
  · simp [h, lastAssoc]

theorem buildMapD_lastVal (l : List (Prod (List Char) (List Char))) :
    ∀ pr ∈ buildMapD l, lastAssoc l pr.1 = some pr.2 := by
  induction l using List.reverseRecOn with
  | nil => intro pr h; simp [buildMapD] at h
  | append_singleton l x ih =>
    intro pr h
    rw [buildMapD_append_singleton] at h
    rw [lastAssoc_append_singleton]
    unfold dictInsert at h
    by_cases hk : x.1 ∈ (buildMapD l).map Prod.fst
    · rw [if_pos hk] at h
      simp only [List.mem_map] at h
      obtain ⟨pr0, hpr0, hupd⟩ := h
      by_cases h0 : pr0.1 = x.1
      · rw [if_pos h0] at hupd
        rw [← hupd]
        rw [if_pos rfl]
      · rw [if_neg h0] at hupd
        subst hupd
        rw [if_neg (fun he => h0 he.symm)]
        exact ih pr0 hpr0
    · rw [if_neg hk] at h
      rcases List.mem_append.mp h with h1 | h1
      · have hne : x.1 ≠ pr.1 := by
          intro he
          exact hk (he ▸ List.mem_map_of_mem Prod.fst h1)
        rw [if_neg hne]
        exact ih pr h1
      · simp only [List.mem_singleton] at h1
        subst h1
        rw [if_pos rfl]

theorem foldl_dedup_isPrefix (l : List (List Char)) :
    ∀ acc : List (List Char),
      acc <+: l.foldl (fun acc x => if x ∈ acc then acc else acc ++ [x]) acc := by
  induction l with
  | nil => intro acc; exact List.prefix_refl acc
  | cons x t ih =>
    intro acc
    simp only [List.foldl_cons]
    by_cases hx : x ∈ acc
    · rw [if_pos hx]; exact ih acc
    · rw [if_neg hx]
      exact List.IsPrefix.trans (List.prefix_append acc [x]) (ih _)

theorem pyDedup_ne_nil {l : List (List Char)} (h : l ≠ []) : pyDedup l ≠ [] := by
  cases l with
  | nil => exact absurd rfl h
  | cons x t =>
    intro hcon
    have : [x] <+: pyDedup (x :: t) := by
      have := foldl_dedup_isPrefix t [x]
      simpa [pyDedup] using this
    rw [hcon] at this
    simpa using this.length_le

theorem buildS1Map_append_singleton (ms : List (Prod (List Char) (List Char)))
    (pr : Prod (List Char) (List Char)) :
    buildS1Map (ms ++ [pr]) =
      if (cleanBody pr.2).isEmpty then buildS1Map ms
      else dictInsert (buildS1Map ms) pr.1 (cleanBody pr.2) := by
  simp only [buildS1Map, List.foldl_append, List.foldl_cons, List.foldl_nil]

theorem cleanEntriesOf_append_singleton (ms : List (Prod (List Char) (List Char)))
    (pr : Prod (List Char) (List Char)) :
    cleanEntriesOf (ms ++ [pr]) =
      cleanEntriesOf ms ++
        (if (cleanBody pr.2).isEmpty then []
         else [(pr.1, cleanBody pr.2)]) := by
  simp only [cleanEntriesOf, List.filterMap_append, List.filterMap_cons,
    List.filterMap_nil]
  by_cases hcb : (cleanBody pr.2).isEmpty = true
  · rw [if_pos hcb, if_pos hcb]
  · rw [if_neg hcb, if_neg hcb]

/-- Strategy 1's skip-empties fold is the plain dict fold over the
filtered entries. -/
theorem buildS1Map_eq_buildMapD (ms : List (Prod (List Char) (List Char))) :
    buildS1Map ms = buildMapD (cleanEntriesOf ms) := by
  induction ms using List.reverseRecOn with
  | nil => simp only [buildS1Map, buildMapD, cleanEntriesOf, List.filterMap_nil,
      List.foldl_nil]
  | append_singleton ms pr ih =>
    rw [buildS1Map_append_singleton, cleanEntriesOf_append_singleton]
    by_cases hcb : (cleanBody pr.2).isEmpty = true
    · rw [if_pos hcb, if_pos hcb, List.append_nil, ih]
    · rw [if_neg hcb, if_neg hcb, buildMapD_append_singleton, ih]

/-- C5 amended: for a response containing at least one well-formed
`<file>` pair whose trimmed and sanitized body is non-empty, the parser
returns exactly one FileEdit per *distinct* path among such pairs (in
order of first appearance), pairs whose cleaned body is empty contribute
nothing, and each FileEdit's content is the trimmed and sanitized body of
the *last* such pair with that path. -/
theorem c5_one_file_per_distinct_path (response : String)
    (h : ∃ pr ∈ findFileTags response.data, ¬(cleanBody pr.2).isEmpty) :
    ((parse_ai_response response).files.map FileEdit.path) =
      (pyDedup ((s1CleanEntries response.data).map Prod.fst)).map
        (fun p => (⟨p⟩ : String)) ∧
    ∀ fe ∈ (parse_ai_response response).files,
      lastAssoc (s1CleanEntries response.data) fe.path.data =
        some fe.content.data := by
  have hb : buildS1Map (findFileTags response.data) =
      buildMapD (s1CleanEntries response.data) :=
    buildS1Map_eq_buildMapD _
  have hents : s1CleanEntries response.data ≠ [] := by
    obtain ⟨pr, hpr, hcb⟩ := h
    intro hcon
    have : (pr.1, cleanBody pr.2) ∈ s1CleanEntries response.data := by
      unfold s1CleanEntries
      exact List.mem_filterMap.mpr ⟨pr, hpr, by simp [hcb]⟩
    rw [hcon] at this
    simp at this
  have hne : ¬(buildS1Map (findFileTags response.data)).isEmpty := by
    rw [hb]
    intro hcon
    have h0 : buildMapD (s1CleanEntries response.data) = [] :=
      List.isEmpty_iff.mp hcon
    have hk := buildMapD_keys (s1CleanEntries response.data)
    rw [h0] at hk
    exact pyDedup_ne_nil (fun hmap => hents (List.map_eq_nil_iff.mp hmap)) hk.symm
  have hfm : fileMapOf response.data = buildMapD (s1CleanEntries response.data) := by
    unfold fileMapOf
    rw [if_pos hne, hb]
  have hfiles : (parse_ai_response response).files =
      (buildMapD (s1CleanEntries response.data)).map
        (fun kv => FileEdit.mk ⟨kv.1⟩ ⟨kv.2⟩) := by
    show (fileMapOf response.data).map _ = _
    rw [hfm]
  constructor
  · rw [hfiles, ← buildMapD_keys]
    simp [List.map_map, Function.comp]
  · intro fe hfe
    rw [hfiles] at hfe
    simp only [List.mem_map] at hfe
    obtain ⟨kv, hkv, hmk⟩ := hfe
    have := buildMapD_lastVal _ kv hkv
    rw [← hmk]
    exact this

set_option maxHeartbeats 2000000 in
theorem c5_witness :
    (∃ pr ∈ findFileTags
        ("<file path=\"a\">x</file><file path=\"b\"> </file><file path=\"a\">z</file>").data,
      ¬(cleanBody pr.2).isEmpty) ∧
    (((parse_ai_response
        "<file path=\"a\">x</file><file path=\"b\"> </file><file path=\"a\">z</file>").files.map
          FileEdit.path) =
      (pyDedup ((s1CleanEntries
        ("<file path=\"a\">x</file><file path=\"b\"> </file><file path=\"a\">z</file>").data).map
          Prod.fst)).map (fun p => (⟨p⟩ : String)) ∧
    ∀ fe ∈ (parse_ai_response
        "<file path=\"a\">x</file><file path=\"b\"> </file><file path=\"a\">z</file>").files,
      lastAssoc (s1CleanEntries
          ("<file path=\"a\">x</file><file path=\"b\"> </file><file path=\"a\">z</file>").data)
          fe.path.data =
        some fe.content.data) :=
  ⟨⟨(("a".data, "x".data)), by decide⟩,
    c5_one_file_per_distinct_path
      "<file path=\"a\">x</file><file path=\"b\"> </file><file path=\"a\">z</file>"
      ⟨(("a".data, "x".data)), by decide⟩⟩

/-- C3 amended: a request whose response yields zero files from every
strategy does not fail and applies nothing: the POST model returns the
event stream (a request-level failure only arises when the parser raises,
and the parser is total), the stream dispatches no file write, the results
stay empty, and the stream ends with a `complete` event carrying the empty
results. -/
theorem c3_zero_files_nothing_applied (response : String)
    (h : (parse_ai_response response).files = [])
    (hne : response ≠ "")
    (packagesIn : List String) (cleanupRemoved : List String) (installOut : String)
    (w : String → Bool) (cacheFiles : Option Nat) (reloadOk : Bool)
    (known0 : List String) :
    (eventStream (parse_ai_response response) packagesIn cleanupRemoved installOut w
      cacheFiles reloadOk known0).writes = 0 ∧
    (eventStream (parse_ai_response response) packagesIn cleanupRemoved installOut w
      cacheFiles reloadOk known0).results = Results.empty ∧
    (eventStream (parse_ai_response response) packagesIn cleanupRemoved installOut w
        cacheFiles reloadOk known0).events.getLast? =
      some (.complete Results.empty (parse_ai_response response).explanation
        (parse_ai_response response).structureText "Successfully applied 0 files!") ∧
    isRequestFailure (POSTmodel response packagesIn true cleanupRemoved installOut w
      cacheFiles reloadOk known0) = false := by
  have hstream : ∀ P : Sections, P.files = [] →
      (eventStream P packagesIn cleanupRemoved installOut w cacheFiles reloadOk
        known0).writes = 0 ∧
      (eventStream P packagesIn cleanupRemoved installOut w cacheFiles reloadOk
        known0).results = Results.empty ∧
      (eventStream P packagesIn cleanupRemoved installOut w cacheFiles reloadOk
          known0).events.getLast? =
        some (.complete Results.empty P.explanation P.structureText
          "Successfully applied 0 files!") := by
    intro P hP
    simp only [eventStream, hP, applyFilesAux, Results.empty, List.isEmpty_nil,
      not_true_eq_false, or_self, if_false, List.length_nil]
    refine ⟨trivial, trivial, ?_⟩
    rw [getLast?_append_singleton]
    rfl
  obtain ⟨h1, h2, h3⟩ := hstream (parse_ai_response response) h
  refine ⟨h1, h2, h3, ?_⟩
  unfold POSTmodel
  rw [if_neg hne]
  rfl

theorem applyStep_processable_success (w : String → Bool) (total : Nat)
    (st : ApplyState) (idx : Nat) (f : FileEdit)
    (hp : processable f) (hw : w ⟨normOf f⟩ = true) :
    (applyStep w total st idx f).results.errors = st.results.errors ∧
    (applyStep w total st idx f).results.filesCreated.length +
        (applyStep w total st idx f).results.filesUpdated.length =
      st.results.filesCreated.length + st.results.filesUpdated.length + 1 ∧
    ∀ p : String,
      (p ∈ (applyStep w total st idx f).results.filesCreated ∨
        p ∈ (applyStep w total st idx f).results.filesUpdated) ↔
      ((p ∈ st.results.filesCreated ∨ p ∈ st.results.filesUpdated) ∨
        p = ⟨normOf f⟩) := by
  obtain ⟨h1, h2, h3⟩ := hp
  simp only [normOf] at hw ⊢
  have h3' : ((splitOnChar '/' (stripSlash (trimPy f.path.data))).getLast?).getD [] ∉
      configFiles := h3
  simp only [applyStep]
  rw [if_neg (fun hcon => Or.elim hcon h1 h2), if_neg h3', if_pos hw]
  by_cases hu : (⟨rootSrc (stripSlash (trimPy f.path.data))⟩ : String) ∈ st.known
  · rw [if_pos hu]
    refine ⟨rfl, by simp; omega, ?_⟩
    intro p
    simp only [List.mem_append, List.mem_singleton]
    tauto
  · rw [if_neg hu]
    refine ⟨rfl, by simp; omega, ?_⟩
    intro p
    simp only [List.mem_append, List.mem_singleton]
    tauto

theorem applyStep_processable_failure (w : String → Bool) (total : Nat)
    (st : ApplyState) (idx : Nat) (f : FileEdit)
    (hp : processable f) (hw : w ⟨normOf f⟩ = false) :
    (applyStep w total st idx f).results.errors =
      st.results.errors ++ [(⟨"Failed to write ".data ++ normOf f⟩ : String)] ∧
    (applyStep w total st idx f).results.filesCreated =
      st.results.filesCreated ∧
    (applyStep w total st idx f).results.filesUpdated =
      st.results.filesUpdated := by
  obtain ⟨h1, h2, h3⟩ := hp
  simp only [normOf] at hw ⊢
  have h3' : ((splitOnChar '/' (stripSlash (trimPy f.path.data))).getLast?).getD [] ∉
      configFiles := h3
  have hw' : ¬(w (⟨rootSrc (stripSlash (trimPy f.path.data))⟩ : String) = true) := by
    rw [hw]; simp
  simp only [applyStep]
  rw [if_neg (fun hcon => Or.elim hcon h1 h2), if_neg h3', if_neg hw']
  exact ⟨rfl, rfl, rfl⟩

theorem applyFilesAux_append (w : String → Bool) (total : Nat)
    (xs ys : List FileEdit) :
    ∀ (st : ApplyState) (idx : Nat),
      applyFilesAux w total st idx (xs ++ ys) =
        applyFilesAux w total (applyFilesAux w total st idx xs) (idx + xs.length) ys := by
  induction xs with
  | nil => intro st idx; simp [applyFilesAux]
  | cons x t ih =>
    intro st idx
    simp only [List.cons_append, applyFilesAux, List.append_eq, List.length_cons]
    rw [ih]
    congr 1
    omega

theorem applyRun_success (w : String → Bool) (total : Nat) (fs : List FileEdit)
    (hfs : ∀ f ∈ fs, processable f ∧ w ⟨normOf f⟩ = true) :
    ∀ (st : ApplyState) (idx : Nat),
      (applyFilesAux w total st idx fs).results.errors = st.results.errors ∧
      (applyFilesAux w total st idx fs).results.filesCreated.length +
          (applyFilesAux w total st idx fs).results.filesUpdated.length =
        st.results.filesCreated.length + st.results.filesUpdated.length + fs.length ∧
      ∀ p : String,
        (p ∈ (applyFilesAux w total st idx fs).results.filesCreated ∨
          p ∈ (applyFilesAux w total st idx fs).results.filesUpdated) ↔
        ((p ∈ st.results.filesCreated ∨ p ∈ st.results.filesUpdated) ∨
          ∃ f ∈ fs, p = (⟨normOf f⟩ : String)) := by
  induction fs with
  | nil =>
    intro st idx
    refine ⟨rfl, by simp [applyFilesAux], ?_⟩
    intro p
    simp [applyFilesAux]
  | cons f t ih =>
    intro st idx
    have hf := hfs f (List.mem_cons_self _ _)
    have step := applyStep_processable_success w total st idx f hf.1 hf.2
    have iht := ih (fun g hg => hfs g (List.mem_cons_of_mem _ hg))
      (applyStep w total st idx f) (idx + 1)
    simp only [applyFilesAux]
    refine ⟨iht.1.trans step.1, ?_, ?_⟩
    · have := iht.2.1
      have := step.2.1
      simp only [List.length_cons]
      omega
    · intro p
      rw [iht.2.2 p, step.2.2 p]
      constructor
      · rintro ((hin | heq) | ⟨g, hg, hpg⟩)
        · exact Or.inl hin
        · exact Or.inr ⟨f, List.mem_cons_self _ _, heq⟩
        · exact Or.inr ⟨g, List.mem_cons_of_mem _ hg, hpg⟩
      · rintro (hin | ⟨g, hg, hpg⟩)
        · exact Or.inl (Or.inl hin)
        · rcases List.mem_cons.mp hg with hgf | hgt
          · exact Or.inl (Or.inr (hgf ▸ hpg))
          · exact Or.inr ⟨g, hgt, hpg⟩

/-- C7: if exactly one file's remote write fails while every other file of
the Change Set succeeds, the applier records exactly that file's failure
in the error collection, every other file is written and appears among
created/updated, and the loop never aborts: all other files are
processed. -/
theorem c7_partial_failure (pre post : List FileEdit) (fB : FileEdit)
    (w : String → Bool) (known0 : List String) (events0 : List Event)
    (writes0 : Nat) (total idx0 : Nat)
    (hpre : ∀ f ∈ pre ++ post, processable f ∧ w ⟨normOf f⟩ = true)
    (hBp : processable fB) (hBw : w ⟨normOf fB⟩ = false)
    (hdist : ∀ f ∈ pre ++ post, normOf f ≠ normOf fB) :
    (applyFilesAux w total ⟨known0, Results.empty, events0, writes0⟩ idx0
      (pre ++ [fB] ++ post)).results.errors =
      [(⟨"Failed to write ".data ++ normOf fB⟩ : String)] ∧
    (applyFilesAux w total ⟨known0, Results.empty, events0, writes0⟩ idx0
        (pre ++ [fB] ++ post)).results.filesCreated.length +
      (applyFilesAux w total ⟨known0, Results.empty, events0, writes0⟩ idx0
        (pre ++ [fB] ++ post)).results.filesUpdated.length =
      pre.length + post.length ∧
    (∀ f ∈ pre ++ post,
      (⟨normOf f⟩ : String) ∈ (applyFilesAux w total
        ⟨known0, Results.empty, events0, writes0⟩ idx0
        (pre ++ [fB] ++ post)).results.filesCreated ∨
      (⟨normOf f⟩ : String) ∈ (applyFilesAux w total
        ⟨known0, Results.empty, events0, writes0⟩ idx0
        (pre ++ [fB] ++ post)).results.filesUpdated) ∧
    ¬((⟨normOf fB⟩ : String) ∈ (applyFilesAux w total
        ⟨known0, Results.empty, events0, writes0⟩ idx0
        (pre ++ [fB] ++ post)).results.filesCreated ∨
      (⟨normOf fB⟩ : String) ∈ (applyFilesAux w total
        ⟨known0, Results.empty, events0, writes0⟩ idx0
        (pre ++ [fB] ++ post)).results.filesUpdated) := by
  have hpre' : ∀ f ∈ pre, processable f ∧ w ⟨normOf f⟩ = true :=
    fun f hf => hpre f (List.mem_append.mpr (Or.inl hf))
  have hpost' : ∀ f ∈ post, processable f ∧ w ⟨normOf f⟩ = true :=
    fun f hf => hpre f (List.mem_append.mpr (Or.inr hf))
  set st0 : ApplyState := ⟨known0, Results.empty, events0, writes0⟩ with hst0
  rw [applyFilesAux_append, applyFilesAux_append]
  set stPre := applyFilesAux w total st0 idx0 pre with hstPre
  have runPre := applyRun_success w total pre hpre' st0 idx0
  have stepB := applyStep_processable_failure w total stPre (idx0 + pre.length) fB
    hBp hBw
  have hB1 : applyFilesAux w total stPre (idx0 + pre.length) [fB] =
      applyStep w total stPre (idx0 + pre.length) fB := rfl
  rw [hB1]
  set stB := applyStep w total stPre (idx0 + pre.length) fB with hstB
  have runPost := applyRun_success w total post hpost' stB
    (idx0 + (pre ++ [fB]).length)
  have hemp : st0.results = Results.empty := rfl
  have he0 : st0.results.errors = [] := rfl
  have hc0 : st0.results.filesCreated = [] := rfl
  have hu0 : st0.results.filesUpdated = [] := rfl
  have hBerr : stB.results.errors =
      [(⟨"Failed to write ".data ++ normOf fB⟩ : String)] := by
    rw [stepB.1, runPre.1, he0]
    simp
  have hmemB : ∀ p : String,
      (p ∈ stB.results.filesCreated ∨ p ∈ stB.results.filesUpdated) ↔
      ∃ f ∈ pre, p = (⟨normOf f⟩ : String) := by
    intro p
    rw [stepB.2.1, stepB.2.2]
    rw [runPre.2.2 p, hc0, hu0]
    simp
  refine ⟨?_, ?_, ?_, ?_⟩
  · rw [runPost.1, hBerr]
  · have := runPost.2.1
    have h2 : stB.results.filesCreated.length + stB.results.filesUpdated.length =
        pre.length := by
      rw [stepB.2.1, stepB.2.2]
      have := runPre.2.1
      rw [hc0, hu0] at this
      simpa using this
    omega
  · intro f hf
    rcases List.mem_append.mp hf with hfp | hfp
    · have : (⟨normOf f⟩ : String) ∈ stB.results.filesCreated ∨
          (⟨normOf f⟩ : String) ∈ stB.results.filesUpdated :=
        (hmemB _).mpr ⟨f, hfp, rfl⟩
      exact (runPost.2.2 _).mpr (Or.inl this)
    · exact (runPost.2.2 _).mpr (Or.inr ⟨f, hfp, rfl⟩)
  · intro hcon
    rcases (runPost.2.2 _).mp hcon with hin | ⟨g, hg, hpg⟩
    · rcases (hmemB _).mp hin with ⟨g, hg, hpg⟩
      have : normOf fB = normOf g := congrArg String.data hpg
      exact hdist g (List.mem_append.mpr (Or.inl hg)) this.symm
    · have : normOf fB = normOf g := congrArg String.data hpg
      exact hdist g (List.mem_append.mpr (Or.inr hg)) this.symm

theorem c7_witness :
    (applyFilesAux c7w 3 ⟨[], Results.empty, [], 0⟩ 0
      ([c7A] ++ [c7B] ++ [c7C])).results.errors =
      [(⟨"Failed to write ".data ++ normOf c7B⟩ : String)] ∧
    (applyFilesAux c7w 3 ⟨[], Results.empty, [], 0⟩ 0
        ([c7A] ++ [c7B] ++ [c7C])).results.filesCreated.length +
      (applyFilesAux c7w 3 ⟨[], Results.empty, [], 0⟩ 0
        ([c7A] ++ [c7B] ++ [c7C])).results.filesUpdated.length =
      [c7A].length + [c7C].length ∧
    (∀ f ∈ [c7A] ++ [c7C],
      (⟨normOf f⟩ : String) ∈ (applyFilesAux c7w 3 ⟨[], Results.empty, [], 0⟩ 0
        ([c7A] ++ [c7B] ++ [c7C])).results.filesCreated ∨
      (⟨normOf f⟩ : String) ∈ (applyFilesAux c7w 3 ⟨[], Results.empty, [], 0⟩ 0
        ([c7A] ++ [c7B] ++ [c7C])).results.filesUpdated) ∧
    ¬((⟨normOf c7B⟩ : String) ∈ (applyFilesAux c7w 3 ⟨[], Results.empty, [], 0⟩ 0
        ([c7A] ++ [c7B] ++ [c7C])).results.filesCreated ∨
      (⟨normOf c7B⟩ : String) ∈ (applyFilesAux c7w 3 ⟨[], Results.empty, [], 0⟩ 0
        ([c7A] ++ [c7B] ++ [c7C])).results.filesUpdated) :=
  c7_partial_failure [c7A] [c7C] c7B c7w [] [] 0 3 0 (by decide) (by decide)
    (by decide) (by decide)

set_option maxHeartbeats 2000000 in
theorem c3_witness :
    (parse_ai_response "just chatting, no files here").files = [] ∧
    (eventStream (parse_ai_response "just chatting, no files here") ["axios"] []
      "no" (fun _ => false) none false ["src/App.jsx"]).writes = 0 ∧
    (eventStream (parse_ai_response "just chatting, no files here") ["axios"] []
      "no" (fun _ => false) none false ["src/App.jsx"]).results = Results.empty ∧
    (eventStream (parse_ai_response "just chatting, no files here") ["axios"] []
        "no" (fun _ => false) none false ["src/App.jsx"]).events.getLast? =
      some (.complete Results.empty
        (parse_ai_response "just chatting, no files here").explanation
        (parse_ai_response "just chatting, no files here").structureText
        "Successfully applied 0 files!") ∧
    isRequestFailure (POSTmodel "just chatting, no files here" ["axios"] true []
      "no" (fun _ => false) none false ["src/App.jsx"]) = false := by
  have h := c3_zero_files_nothing_applied "just chatting, no files here"
    (by decide) (by decide) ["axios"] [] "no" (fun _ => false) none false
    ["src/App.jsx"]
  exact ⟨by decide, h.1, h.2.1, h.2.2.1, h.2.2.2⟩

theorem stripPre_append : ∀ (pre r : List Char), stripPre pre (pre ++ r) = some r := by
  intro pre
  induction pre with
  | nil => intro r; rfl
  | cons a as ih =>
    intro r
    simp only [List.cons_append]
    unfold stripPre
    rw [if_pos rfl]
    exact ih r

theorem matchFileTagAt_none_head {c : Char} (t : List Char) (h : c ≠ '<') :
    matchFileTagAt (c :: t) = none := by
  unfold matchFileTagAt
  have hs : stripPre ("<file".data) (c :: t) = none := by
    have hd : "<file".data = '<' :: "file".data := rfl
    rw [hd]
    unfold stripPre
    rw [if_neg (fun he => h he.symm)]
  rw [hs]

theorem findFileTags_skip {A : List Char} (h : ∀ a ∈ A, a ≠ '<') :
    ∀ r, findFileTags (A ++ r) = findFileTags r := by
  induction A with
  | nil => intro r; rfl
  | cons a A' ih =>
    intro r
    rw [List.cons_append, findFileTags_cons,
      matchFileTagAt_none_head _ (h a (List.mem_cons_self _ _))]
    exact ih (fun x hx => h x (List.mem_cons_of_mem _ hx)) r

theorem findFileTags_no_lt {l : List Char} (h : ∀ a ∈ l, a ≠ '<') :
    findFileTags l = [] := by
  have h0 := findFileTags_skip h []
  rw [List.append_nil] at h0
  rw [h0]
  rfl

theorem splitAtCloseTag_exact {b : List Char} (hb : ∀ c ∈ b, c ≠ '<')
    (r : List Char) :
    splitAtCloseTag (b ++ (("</file>".data) ++ r)) = some (b, r) := by
  induction b with
  | nil => rfl
  | cons c b' ih =>
    have hc := hb c (List.mem_cons_self _ _)
    have ih' := ih (fun x hx => hb x (List.mem_cons_of_mem _ hx))
    rw [List.cons_append]
    unfold splitAtCloseTag
    have hn : stripPre ("</file>".data) (c :: (b' ++ (("</file>".data) ++ r))) = none := by
      have hd : ("</file>".data) = '<' :: ("/file>".data) := rfl
      rw [hd]
      unfold stripPre
      rw [if_neg (fun he => hc he.symm)]
    simp only [hn, ih']

theorem splitAtCloseTag_none_of_no_lt {l : List Char} (h : ∀ c ∈ l, c ≠ '<') :
    splitAtCloseTag l = none := by
  induction l with
  | nil => rfl
  | cons c t ih =>
    have ih' := ih (fun x hx => h x (List.mem_cons_of_mem _ hx))
    unfold splitAtCloseTag
    have hn : stripPre ("</file>".data) (c :: t) = none := by
      have hd : ("</file>".data) = '<' :: ("/file>".data) := rfl
      rw [hd]
      unfold stripPre
      rw [if_neg (fun he => h c (List.mem_cons_self _ _) he.symm)]
    simp only [hn, ih']

theorem takeWhile_append_stop {p : Char → Bool} :
    ∀ {xs : List Char}, (∀ x ∈ xs, p x = true) → ∀ {y : Char}, p y = false →
      ∀ (ys : List Char),
        (xs ++ y :: ys).takeWhile p = xs ∧ (xs ++ y :: ys).dropWhile p = y :: ys := by
  intro xs
  induction xs with
  | nil =>
    intro _ y hy ys
    simp only [List.nil_append, List.takeWhile_cons, List.dropWhile_cons, hy]
    exact ⟨rfl, rfl⟩
  | cons x xs' ih =>
    intro hall y hy ys
    have hx := hall x (List.mem_cons_self _ _)
    have ih' := ih (fun z hz => hall z (List.mem_cons_of_mem _ hz)) hy ys
    simp only [List.cons_append, List.takeWhile_cons, List.dropWhile_cons, hx]
    simp only [if_true]
    exact ⟨by rw [ih'.1], by rw [ih'.2]⟩

theorem matchFileTagAt_exact (p1 b1 rest : List Char)
    (hp1 : p1 ≠ []) (hq : ∀ c ∈ p1, notDQ c = true) (hb1 : ∀ c ∈ b1, c ≠ '<') :
    matchFileTagAt (("<file path=\"".data) ++
        (p1 ++ (("\">".data) ++ (b1 ++ (("</file>".data) ++ rest))))) =
      some (p1, b1, rest) := by
  have hsplit := takeWhile_append_stop hq (show notDQ '"' = false from rfl)
    ('>' :: (b1 ++ (("</file>".data) ++ rest)))
  have hpe : p1.isEmpty = false := by
    cases p1 with
    | nil => exact absurd rfl hp1
    | cons a t => rfl
  show matchFileTagAt
      ('<' :: 'f' :: 'i' :: 'l' :: 'e' :: ' ' :: 'p' :: 'a' :: 't' :: 'h' :: '=' :: '"' ::
        (p1 ++ '"' :: '>' :: (b1 ++ (("</file>".data) ++ rest)))) = some (p1, b1, rest)
  unfold matchFileTagAt
  have h1 : stripPre ("<file".data)
      ('<' :: 'f' :: 'i' :: 'l' :: 'e' :: ' ' :: 'p' :: 'a' :: 't' :: 'h' :: '=' :: '"' ::
        (p1 ++ '"' :: '>' :: (b1 ++ (("</file>".data) ++ rest)))) =
      some (' ' :: 'p' :: 'a' :: 't' :: 'h' :: '=' :: '"' ::
        (p1 ++ '"' :: '>' :: (b1 ++ (("</file>".data) ++ rest)))) := rfl
  have h2 : List.takeWhile isPyWs
      (' ' :: 'p' :: 'a' :: 't' :: 'h' :: '=' :: '"' ::
        (p1 ++ '"' :: '>' :: (b1 ++ (("</file>".data) ++ rest)))) = [' '] := rfl
  have h3 : List.dropWhile isPyWs
      (' ' :: 'p' :: 'a' :: 't' :: 'h' :: '=' :: '"' ::
        (p1 ++ '"' :: '>' :: (b1 ++ (("</file>".data) ++ rest)))) =
      ('p' :: 'a' :: 't' :: 'h' :: '=' :: '"' ::
        (p1 ++ '"' :: '>' :: (b1 ++ (("</file>".data) ++ rest)))) := rfl
  have h4 : stripPre ("path=\"".data)
      ('p' :: 'a' :: 't' :: 'h' :: '=' :: '"' ::
        (p1 ++ '"' :: '>' :: (b1 ++ (("</file>".data) ++ rest)))) =
      some (p1 ++ '"' :: '>' :: (b1 ++ (("</file>".data) ++ rest))) := rfl
  have h5 : stripPre ("\">".data) ('"' :: '>' :: (b1 ++ (("</file>".data) ++ rest))) =
      some (b1 ++ (("</file>".data) ++ rest)) := rfl
  simp only [h1, h2, h3, h4, hsplit.1, hsplit.2, hpe, h5,
    splitAtCloseTag_exact hb1 rest, List.isEmpty_cons, Bool.false_eq_true,
    if_false]

theorem matchFileTagAt_open_unterminated (p2 C : List Char)
    (hq : ∀ c ∈ p2, notDQ c = true) (hC : ∀ c ∈ C, c ≠ '<') :
    matchFileTagAt (("<file path=\"".data) ++ (p2 ++ (("\">".data) ++ C))) = none := by
  have hsplit := takeWhile_append_stop hq (show notDQ '"' = false from rfl) ('>' :: C)
  show matchFileTagAt
      ('<' :: 'f' :: 'i' :: 'l' :: 'e' :: ' ' :: 'p' :: 'a' :: 't' :: 'h' :: '=' :: '"' ::
        (p2 ++ '"' :: '>' :: C)) = none
  unfold matchFileTagAt
  have h1 : stripPre ("<file".data)
      ('<' :: 'f' :: 'i' :: 'l' :: 'e' :: ' ' :: 'p' :: 'a' :: 't' :: 'h' :: '=' :: '"' ::
        (p2 ++ '"' :: '>' :: C)) =
      some (' ' :: 'p' :: 'a' :: 't' :: 'h' :: '=' :: '"' ::(p2 ++ '"' :: '>' :: C)) := rfl
  have h2 : List.takeWhile isPyWs
      (' ' :: 'p' :: 'a' :: 't' :: 'h' :: '=' :: '"' ::(p2 ++ '"' :: '>' :: C)) = [' '] := rfl
  have h3 : List.dropWhile isPyWs
      (' ' :: 'p' :: 'a' :: 't' :: 'h' :: '=' :: '"' ::(p2 ++ '"' :: '>' :: C)) =
      ('p' :: 'a' :: 't' :: 'h' :: '=' :: '"' ::(p2 ++ '"' :: '>' :: C)) := rfl
  have h4 : stripPre ("path=\"".data)
      ('p' :: 'a' :: 't' :: 'h' :: '=' :: '"' ::(p2 ++ '"' :: '>' :: C)) =
      some (p2 ++ '"' :: '>' :: C) := rfl
  have h5 : stripPre ("\">".data) ('"' :: '>' :: C) = some C := rfl
  cases hb : p2.isEmpty with
  | true =>
    simp only [h1, h2, h3, h4, hsplit.1, hsplit.2, hb, List.isEmpty_cons,
      Bool.false_eq_true, if_false, if_true]
  | false =>
    simp only [h1, h2, h3, h4, hsplit.1, hsplit.2, hb, h5,
      splitAtCloseTag_none_of_no_lt hC, List.isEmpty_cons, Bool.false_eq_true,
      if_false]

theorem findFileTags_c6 (A B C p1 b1 p2 : List Char)
    (hA : ∀ c ∈ A, c ≠ '<') (hB : ∀ c ∈ B, c ≠ '<') (hC : ∀ c ∈ C, c ≠ '<')
    (hb1 : ∀ c ∈ b1, c ≠ '<')
    (hp1 : p1 ≠ []) (hp1q : ∀ c ∈ p1, notDQ c = true)
    (hp2q : ∀ c ∈ p2, notDQ c = true) (hp2lt : ∀ c ∈ p2, c ≠ '<') :
    findFileTags (A ++ (("<file path=\"".data) ++ (p1 ++ (("\">".data) ++
      (b1 ++ (("</file>".data) ++ (B ++ (("<file path=\"".data) ++
        (p2 ++ (("\">".data) ++ C)))))))))) = [(p1, b1)] := by
  have htail : findFileTags (("file path=\"".data) ++ (p2 ++ (("\">".data) ++ C))) = [] := by
    refine findFileTags_no_lt ?_
    intro a ha
    rcases List.mem_append.mp ha with h | h2
    · exact (by decide : ∀ x ∈ ("file path=\"".data), x ≠ '<') a h
    · rcases List.mem_append.mp h2 with h | h3
      · exact hp2lt a h
      · rcases List.mem_append.mp h3 with h | h
        · exact (by decide : ∀ x ∈ ("\">".data), x ≠ '<') a h
        · exact hC a h
  have hopen2 : ("<file path=\"".data) ++ (p2 ++ (("\">".data) ++ C)) =
      '<' :: (("file path=\"".data) ++ (p2 ++ (("\">".data) ++ C))) := rfl
  have hm2 : matchFileTagAt
      ('<' :: (("file path=\"".data) ++ (p2 ++ (("\">".data) ++ C)))) = none := by
    rw [← hopen2]
    exact matchFileTagAt_open_unterminated p2 C hp2q hC
  have hb1eq : ("<file path=\"".data) ++ (p1 ++ (("\">".data) ++
      (b1 ++ (("</file>".data) ++ (B ++ (("<file path=\"".data) ++
        (p2 ++ (("\">".data) ++ C)))))))) =
      '<' :: (("file path=\"".data) ++ (p1 ++ (("\">".data) ++
        (b1 ++ (("</file>".data) ++ (B ++ (("<file path=\"".data) ++
          (p2 ++ (("\">".data) ++ C))))))))) := rfl
  have hm1 : matchFileTagAt
      ('<' :: (("file path=\"".data) ++ (p1 ++ (("\">".data) ++
        (b1 ++ (("</file>".data) ++ (B ++ (("<file path=\"".data) ++
          (p2 ++ (("\">".data) ++ C)))))))))) =
      some (p1, b1, B ++ (("<file path=\"".data) ++ (p2 ++ (("\">".data) ++ C)))) := by
    rw [← hb1eq]
    exact matchFileTagAt_exact p1 b1 _ hp1 hp1q hb1
  rw [findFileTags_skip hA, hb1eq, findFileTags_cons]
  simp only [hm1]
  rw [findFileTags_skip hB, hopen2, findFileTags_cons]
  simp only [hm2, htail]

theorem files_of_single_tag {t : List Char} {p b : List Char}
    (hft : findFileTags t = [(p, b)]) (hcb : (cleanBody b).isEmpty = false) :
    (parse_ai_response ⟨t⟩).files = [FileEdit.mk ⟨p⟩ ⟨cleanBody b⟩] := by
  have hone : buildS1Map [(p, b)] =
      (if (cleanBody b).isEmpty then [] else dictInsert [] p (cleanBody b)) := by
    simp only [buildS1Map, List.foldl]
  have hs1 : buildS1Map (findFileTags t) = [(p, cleanBody b)] := by
    rw [hft, hone, hcb, if_neg Bool.false_ne_true]
    rfl
  have hfm : fileMapOf t = [(p, cleanBody b)] := by
    unfold fileMapOf
    rw [hs1]
    rfl
  show (fileMapOf t).map (fun kv => FileEdit.mk ⟨kv.1⟩ ⟨kv.2⟩) =
    [FileEdit.mk ⟨p⟩ ⟨cleanBody b⟩]
  rw [hfm]
  simp only [List.map_cons, List.map_nil]

/-- C6: for input text holding one complete `<file path="...">...</file>`
pair (with a non-empty cleaned body) and, later in the text, one separate
unterminated `<file path="...">` open tag that is never closed, the parser
returns exactly the file of the complete pair: strategy 1 (well-formed
tags) fires, so the truncated-tag strategy 2 is never consulted and no
entry for the unterminated tag (nor any other strategy's output) is merged
into the result.  The side conditions say the surrounding text `A`, `B`,
`C`, the body and the paths contain no further `<` (so the tags named are
the only tag candidates) and the paths are non-empty and quote-free. -/
theorem c6_complete_beats_truncated (A B C p1 b1 p2 : List Char)
    (hA : ∀ c ∈ A, c ≠ '<') (hB : ∀ c ∈ B, c ≠ '<') (hC : ∀ c ∈ C, c ≠ '<')
    (hb1 : ∀ c ∈ b1, c ≠ '<')
    (hp1 : p1 ≠ []) (hp1q : ∀ c ∈ p1, notDQ c = true)
    (hp2q : ∀ c ∈ p2, notDQ c = true) (hp2lt : ∀ c ∈ p2, c ≠ '<')
    (hcb : (cleanBody b1).isEmpty = false) :
    (parse_ai_response ⟨A ++ (("<file path=\"".data) ++ (p1 ++ (("\">".data) ++
        (b1 ++ (("</file>".data) ++ (B ++ (("<file path=\"".data) ++
          (p2 ++ (("\">".data) ++ C)))))))))⟩).files =
      [FileEdit.mk ⟨p1⟩ ⟨cleanBody b1⟩] :=
  files_of_single_tag
    (findFileTags_c6 A B C p1 b1 p2 hA hB hC hb1 hp1 hp1q hp2q hp2lt) hcb

/-- Witness: a concrete response with one complete tag (src/App.jsx) and
one unterminated tag (src/Other.jsx) parses to just the complete file. -/
theorem c6_witness :
    (parse_ai_response ⟨("Here are the files:\n".data) ++ (("<file path=\"".data) ++
        (("src/App.jsx".data) ++ (("\">".data) ++
        (("function App() \x7b return null \x7d".data) ++ (("</file>".data) ++
        (("\nAnd one truncated: ".data) ++ (("<file path=\"".data) ++
        (("src/Other.jsx".data) ++ (("\">".data) ++
        ("export default Other".data))))))))))⟩).files =
      [FileEdit.mk ⟨"src/App.jsx".data⟩
        ⟨cleanBody ("function App() \x7b return null \x7d".data)⟩] :=
  c6_complete_beats_truncated _ _ _ _ _ _ (by decide) (by decide) (by decide)
    (by decide) (by decide) (by decide) (by decide) (by decide) (by decide)

theorem mat_suffix_le :
    ∀ (f : Nat) (e : Rx) (s : List Char), ∀ pr ∈ mat f e s, pr.1.length ≤ s.length := by
  intro f
  induction f with
  | zero => intro e s pr h; simp [mat] at h
  | succ f ih =>
    intro e s pr h
    cases e with
    | eps =>
      simp only [mat, List.mem_singleton] at h
      subst h
      exact le_refl _
    | lit c =>
      cases s with
      | nil => simp [mat] at h
      | cons d t =>
        simp only [mat] at h
        split at h
        · simp only [List.mem_singleton] at h
          subst h
          simp
        · simp at h
    | cls n rs =>
      cases s with
      | nil => simp [mat] at h
      | cons d t =>
        simp only [mat] at h
        split at h
        · simp only [List.mem_singleton] at h
          subst h
          simp
        · simp at h
    | dot da =>
      cases s with
      | nil => simp [mat] at h
      | cons d t =>
        simp only [mat] at h
        split at h
        · simp only [List.mem_singleton] at h
          subst h
          simp
        · simp at h
    | seq a b =>
      simp only [mat, List.mem_flatMap, List.mem_map] at h
      obtain ⟨p, hp, q, hq, hpr⟩ := h
      have h1 := ih a s p hp
      have h2 := ih b p.1 q hq
      rw [← hpr]
      exact le_trans h2 h1
    | alt a b =>
      simp only [mat, List.mem_append] at h
      rcases h with h | h
      · exact ih a s pr h
      · exact ih b s pr h
    | star lz e =>
      have hmore : ∀ pr2 ∈ (mat f e s).flatMap (fun p =>
          if p.1.length < s.length then
            (mat f (.star lz e) p.1).map (fun q => (q.1, p.2 ++ q.2))
          else []), pr2.1.length ≤ s.length := by
        intro pr2 h2
        simp only [List.mem_flatMap] at h2
        obtain ⟨p, hp, hin⟩ := h2
        by_cases hlt : p.1.length < s.length
        · rw [if_pos hlt] at hin
          simp only [List.mem_map] at hin
          obtain ⟨q, hq, hpr⟩ := hin
          have h3 := ih (.star lz e) p.1 q hq
          rw [← hpr]
          show q.1.length ≤ s.length
          omega
        · rw [if_neg hlt] at hin
          simp at hin
      simp only [mat] at h
      cases lz with
      | true =>
        rw [if_pos rfl] at h
        rcases List.mem_cons.mp h with h | h
        · subst h; exact le_refl _
        · exact hmore pr h
      | false =>
        rw [if_neg (by simp)] at h
        rcases List.mem_append.mp h with h | h
        · exact hmore pr h
        · rcases List.mem_singleton.mp h with h
          subst h; exact le_refl _
    | opt e =>
      simp only [mat, List.mem_append, List.mem_singleton] at h
      rcases h with h | h
      · exact ih e s pr h
      · subst h; exact le_refl _
    | grp n e =>
      simp only [mat, List.mem_map] at h
      obtain ⟨p, hp, hpr⟩ := h
      have h1 := ih e s p hp
      rw [← hpr]
      exact h1
    | look e =>
      simp only [mat] at h
      split at h
      · simp at h
      · simp only [List.mem_singleton] at h
        subst h
        exact le_refl _
    | eos =>
      simp only [mat] at h
      split at h
      · simp only [List.mem_singleton] at h
        subst h
        exact le_refl _
      · simp at h

theorem mat_consumes :
    ∀ (f : Nat) (e : Rx) (s : List Char), consumesB e = true →
      ∀ pr ∈ mat f e s, pr.1.length < s.length := by
  intro f
  induction f with
  | zero => intro e s _ pr h; simp [mat] at h
  | succ f ih =>
    intro e s hc pr h
    cases e with
    | eps => simp [consumesB] at hc
    | eos => simp [consumesB] at hc
    | star lz e => simp [consumesB] at hc
    | opt e => simp [consumesB] at hc
    | look e => simp [consumesB] at hc
    | lit c =>
      cases s with
      | nil => simp [mat] at h
      | cons d t =>
        simp only [mat] at h
        split at h
        · simp only [List.mem_singleton] at h; subst h; simp
        · simp at h
    | cls n rs =>
      cases s with
      | nil => simp [mat] at h
      | cons d t =>
        simp only [mat] at h
        split at h
        · simp only [List.mem_singleton] at h; subst h; simp
        · simp at h
    | dot da =>
      cases s with
      | nil => simp [mat] at h
      | cons d t =>
        simp only [mat] at h
        split at h
        · simp only [List.mem_singleton] at h; subst h; simp
        · simp at h
    | seq a b =>
      simp only [mat, List.mem_flatMap, List.mem_map] at h
      obtain ⟨p, hp, q, hq, hpr⟩ := h
      have hsa := mat_suffix_le f a s p hp
      have hsb := mat_suffix_le f b p.1 q hq
      rw [← hpr]
      show q.1.length < s.length
      rcases (show consumesB a = true ∨ consumesB b = true by
        simpa [consumesB] using hc) with hca | hcb
      · have := ih a s hca p hp; omega
      · have := ih b p.1 hcb q hq; omega
    | alt a b =>
      have hc' : consumesB a = true ∧ consumesB b = true := by
        simpa [consumesB] using hc
      simp only [mat, List.mem_append] at h
      rcases h with h | h
      · exact ih a s hc'.1 pr h
      · exact ih b s hc'.2 pr h
    | grp n e =>
      simp only [mat, List.mem_map] at h
      obtain ⟨p, hp, hpr⟩ := h
      rw [← hpr]
      show p.1.length < s.length
      exact ih e s (by simpa [consumesB] using hc) p hp

theorem mat_no1 :
    ∀ (f : Nat) (e : Rx) (s : List Char), noGrp1 e = true →
      ∀ pr ∈ mat f e s, ∀ q ∈ pr.2, q.1 ≠ 1 := by
  intro f
  induction f with
  | zero => intro e s _ pr h; simp [mat] at h
  | succ f ih =>
    intro e s hg pr h
    cases e with
    | eps =>
      simp only [mat, List.mem_singleton] at h
      subst h
      exact fun q hq => absurd hq (by simp)
    | eos =>
      simp only [mat] at h
      split at h
      · simp only [List.mem_singleton] at h
        subst h
        exact fun q hq => absurd hq (by simp)
      · simp at h
    | lit c =>
      cases s with
      | nil => simp [mat] at h
      | cons d t =>
        simp only [mat] at h
        split at h
        · simp only [List.mem_singleton] at h
          subst h
          exact fun q hq => absurd hq (by simp)
        · simp at h
    | cls n rs =>
      cases s with
      | nil => simp [mat] at h
      | cons d t =>
        simp only [mat] at h
        split at h
        · simp only [List.mem_singleton] at h
          subst h
          exact fun q hq => absurd hq (by simp)
        · simp at h
    | dot da =>
      cases s with
      | nil => simp [mat] at h
      | cons d t =>
        simp only [mat] at h
        split at h
        · simp only [List.mem_singleton] at h
          subst h
          exact fun q hq => absurd hq (by simp)
        · simp at h
    | seq a b =>
      have hg' : noGrp1 a = true ∧ noGrp1 b = true := by simpa [noGrp1] using hg
      simp only [mat, List.mem_flatMap, List.mem_map] at h
      obtain ⟨p, hp, q', hq', hpr⟩ := h
      intro q hq
      rw [← hpr] at hq
      have hq2 : q ∈ p.2 ++ q'.2 := hq
      rcases List.mem_append.mp hq2 with hin | hin
      · exact ih a s hg'.1 p hp q hin
      · exact ih b p.1 hg'.2 q' hq' q hin
    | alt a b =>
      have hg' : noGrp1 a = true ∧ noGrp1 b = true := by simpa [noGrp1] using hg
      simp only [mat, List.mem_append] at h
      rcases h with h | h
      · exact ih a s hg'.1 pr h
      · exact ih b s hg'.2 pr h
    | star lz e =>
      have hge : noGrp1 e = true := by simpa [noGrp1] using hg
      have hmore : ∀ pr2 ∈ (mat f e s).flatMap (fun p =>
          if p.1.length < s.length then
            (mat f (.star lz e) p.1).map (fun q => (q.1, p.2 ++ q.2))
          else []), ∀ q ∈ pr2.2, q.1 ≠ 1 := by
        intro pr2 h2
        simp only [List.mem_flatMap] at h2
        obtain ⟨p, hp, hin⟩ := h2
        by_cases hlt : p.1.length < s.length
        · rw [if_pos hlt] at hin
          simp only [List.mem_map] at hin
          obtain ⟨q', hq', hpr⟩ := hin
          intro q hq
          rw [← hpr] at hq
          have hq2 : q ∈ p.2 ++ q'.2 := hq
          rcases List.mem_append.mp hq2 with hin2 | hin2
          · exact ih e s hge p hp q hin2
          · exact ih (.star lz e) p.1 hg q' hq' q hin2
        · rw [if_neg hlt] at hin
          simp at hin
      simp only [mat] at h
      cases lz with
      | true =>
        rw [if_pos rfl] at h
        rcases List.mem_cons.mp h with h | h
        · subst h; exact fun q hq => absurd hq (by simp)
        · exact hmore pr h
      | false =>
        rw [if_neg (by simp)] at h
        rcases List.mem_append.mp h with h | h
        · exact hmore pr h
        · rcases List.mem_singleton.mp h with h
          subst h; exact fun q hq => absurd hq (by simp)
    | opt e =>
      have hge : noGrp1 e = true := by simpa [noGrp1] using hg
      simp only [mat, List.mem_append, List.mem_singleton] at h
      rcases h with h | h
      · exact ih e s hge pr h
      · subst h; exact fun q hq => absurd hq (by simp)
    | grp n e =>
      have hg' : n ≠ 1 ∧ noGrp1 e = true := by simpa [noGrp1] using hg
      simp only [mat, List.mem_map] at h
      obtain ⟨p, hp, hpr⟩ := h
      intro q hq
      rw [← hpr] at hq
      have hq2 : q ∈ (n, s.take (s.length - p.1.length)) :: p.2 := hq
      rcases List.mem_cons.mp hq2 with hin | hin
      · rw [hin]
        exact hg'.1
      · exact ih e s hg'.2 p hp q hin
    | look e =>
      have hge : noGrp1 e = true := by simpa [noGrp1] using hg
      simp only [mat] at h
      cases hm : mat f e s with
      | nil => rw [hm] at h; simp at h
      | cons pp tl =>
        rw [hm] at h
        simp only [List.mem_singleton] at h
        subst h
        intro q hq
        have hq2 : q ∈ pp.2 := hq
        have hpp : pp ∈ mat f e s := by rw [hm]; exact List.mem_cons_self _ _
        exact ih e s hge pp hpp q hq2

theorem find1_append_of_some {q : Nat × List Char → Bool}
    {l1 l2 : List (Nat × List Char)} {x : Nat × List Char}
    (h : l1.find? q = some x) : (l1 ++ l2).find? q = some x := by
  induction l1 with
  | nil => simp [List.find?] at h
  | cons a t ih =>
    rw [List.cons_append]
    cases hqa : q a with
    | true =>
      rw [List.find?_cons_of_pos _ hqa] at h
      rw [List.find?_cons_of_pos _ hqa]
      exact h
    | false =>
      rw [List.find?_cons_of_neg _ (by simp [hqa])] at h
      rw [List.find?_cons_of_neg _ (by simp [hqa])]
      exact ih h

theorem find1_append_of_none {q : Nat × List Char → Bool}
    {l1 l2 : List (Nat × List Char)}
    (h : ∀ a ∈ l1, q a = false) : (l1 ++ l2).find? q = l2.find? q := by
  induction l1 with
  | nil => rfl
  | cons a t ih =>
    rw [List.cons_append, List.find?_cons_of_neg _ (by simp [h a (List.mem_cons_self a t)])]
    exact ih (fun x hx => h x (List.mem_cons_of_mem _ hx))

theorem mat_grp1 :
    ∀ (f : Nat) (e : Rx) (s : List Char), grp1ok e = true →
      ∀ pr ∈ mat f e s,
        ∃ w, pr.2.find? (fun x => x.1 = 1) = some w ∧ w.2 ≠ [] := by
  intro f
  induction f with
  | zero => intro e s _ pr h; simp [mat] at h
  | succ f ih =>
    intro e s hg pr h
    cases e with
    | eps => simp [grp1ok] at hg
    | eos => simp [grp1ok] at hg
    | lit c => simp [grp1ok] at hg
    | cls n rs => simp [grp1ok] at hg
    | dot da => simp [grp1ok] at hg
    | star lz e => simp [grp1ok] at hg
    | opt e => simp [grp1ok] at hg
    | seq a b =>
      simp only [mat, List.mem_flatMap, List.mem_map] at h
      obtain ⟨p, hp, q, hq, hpr⟩ := h
      have hcases : grp1ok a = true ∨ (noGrp1 a = true ∧ grp1ok b = true) := by
        simpa [grp1ok] using hg
      rcases hcases with hca | ⟨hna, hcb⟩
      · obtain ⟨w, hw, hwne⟩ := ih a s hca p hp
        refine ⟨w, ?_, hwne⟩
        rw [← hpr]
        show (p.2 ++ q.2).find? (fun x => x.1 = 1) = some w
        exact find1_append_of_some hw
      · obtain ⟨w, hw, hwne⟩ := ih b p.1 hcb q hq
        refine ⟨w, ?_, hwne⟩
        rw [← hpr]
        show (p.2 ++ q.2).find? (fun x => x.1 = 1) = some w
        rw [find1_append_of_none (fun x hx =>
          decide_eq_false (mat_no1 f a s hna p hp x hx))]
        exact hw
    | alt a b =>
      have hc : grp1ok a = true ∧ grp1ok b = true := by simpa [grp1ok] using hg
      simp only [mat, List.mem_append] at h
      rcases h with h | h
      · exact ih a s hc.1 pr h
      · exact ih b s hc.2 pr h
    | grp n e =>
      have hc : n = 1 ∧ consumesB e = true := by simpa [grp1ok] using hg
      simp only [mat, List.mem_map] at h
      obtain ⟨p, hp, hpr⟩ := h
      have hcons := mat_consumes f e s hc.2 p hp
      refine ⟨(n, s.take (s.length - p.1.length)), ?_, ?_⟩
      · rw [← hpr]
        show ((n, s.take (s.length - p.1.length)) :: p.2).find?
          (fun x => x.1 = 1) = some (n, s.take (s.length - p.1.length))
        rw [List.find?_cons_of_pos _ (by simp [hc.1])]
      · show s.take (s.length - p.1.length) ≠ []
        have hlen := List.length_take (s.length - p.1.length) s
        intro hnil
        rw [hnil] at hlen
        simp at hlen
        omega
    | look e =>
      have hc : grp1ok e = true := by simpa [grp1ok] using hg
      simp only [mat] at h
      cases hm : mat f e s with
      | nil => rw [hm] at h; simp at h
      | cons pp tl =>
        rw [hm] at h
        simp only [List.mem_singleton] at h
        subst h
        have hpp : pp ∈ mat f e s := by rw [hm]; exact List.mem_cons_self _ _
        obtain ⟨w, hw, hwne⟩ := ih e s hc pp hpp
        exact ⟨w, hw, hwne⟩

theorem getCap1_ne_of_mat {f : Nat} {e : Rx} {s : List Char}
    {pr : List Char × Caps} (hg : grp1ok e = true) (h : pr ∈ mat f e s) :
    getCap pr.2 1 ≠ [] := by
  obtain ⟨w, hw, hwne⟩ := mat_grp1 f e s hg pr h
  unfold getCap
  rw [hw]
  exact hwne

theorem matchHere_grp1 {r : Rx} {s rest : List Char} {caps : Caps}
    (hg : grp1ok r = true) (h : matchHere r s = some (rest, caps)) :
    getCap caps 1 ≠ [] := by
  unfold matchHere at h
  cases hm : mat (rxFuel r s) r s with
  | nil => rw [hm] at h; simp at h
  | cons pp tl =>
    rw [hm] at h
    simp only [List.head?_cons, Option.some.injEq] at h
    have hpp : pp ∈ mat (rxFuel r s) r s := by
      rw [hm]; exact List.mem_cons_self _ _
    have hne := getCap1_ne_of_mat hg hpp
    rw [h] at hne
    exact hne

theorem findAllAux_grp1 {r : Rx} (hg : grp1ok r = true) :
    ∀ (f : Nat) (s : List Char), ∀ caps ∈ findAllAux r f s, getCap caps 1 ≠ [] := by
  intro f
  induction f with
  | zero => intro s caps h; simp [findAllAux] at h
  | succ f ih =>
    intro s caps h
    simp only [findAllAux] at h
    cases hm : matchHere r s with
    | some rc =>
      obtain ⟨rest, cs⟩ := rc
      rw [hm] at h
      cases s with
      | nil =>
        have h2 : caps ∈ (if rest.length < ([] : List Char).length then
            cs :: findAllAux r f rest else [cs]) := h
        rw [if_neg (by simp)] at h2
        rcases List.mem_singleton.mp h2 with h5
        subst h5; exact matchHere_grp1 hg hm
      | cons c t =>
        have h2 : caps ∈ (if rest.length < (c :: t).length then
            cs :: findAllAux r f rest else cs :: findAllAux r f t) := h
        by_cases hlt : rest.length < (c :: t).length
        · rw [if_pos hlt] at h2
          rcases List.mem_cons.mp h2 with h3 | h3
          · subst h3; exact matchHere_grp1 hg hm
          · exact ih rest caps h3
        · rw [if_neg hlt] at h2
          rcases List.mem_cons.mp h2 with h3 | h3
          · subst h3; exact matchHere_grp1 hg hm
          · exact ih t caps h3
    | none =>
      rw [hm] at h
      cases s with
      | nil =>
        have h2 : caps ∈ ([] : List Caps) := h
        simp at h2
      | cons c t =>
        have h2 : caps ∈ findAllAux r f t := h
        exact ih t caps h2

theorem findAllCaps_grp1 {r : Rx} {s : List Char} {caps : Caps}
    (hg : grp1ok r = true) (h : caps ∈ findAllCaps r s) : getCap caps 1 ≠ [] :=
  findAllAux_grp1 hg (s.length + 1) s caps h

theorem searchCaps_grp1 {r : Rx} (hg : grp1ok r = true) :
    ∀ (s : List Char) (caps : Caps), searchCaps r s = some caps →
      getCap caps 1 ≠ [] := by
  intro s
  induction s with
  | nil =>
    intro caps h
    simp only [searchCaps] at h
    cases hm : matchHere r [] with
    | some rc =>
      rw [hm] at h
      obtain ⟨rest, cs⟩ := rc
      have h2 : some cs = some caps := h
      rw [← Option.some.inj h2]
      exact matchHere_grp1 hg hm
    | none =>
      rw [hm] at h
      have h2 : (none : Option Caps) = some caps := h
      exact absurd h2 (by simp)
  | cons c t ih =>
    intro caps h
    simp only [searchCaps] at h
    cases hm : matchHere r (c :: t) with
    | some rc =>
      rw [hm] at h
      obtain ⟨rest, cs⟩ := rc
      have h2 : some cs = some caps := h
      rw [← Option.some.inj h2]
      exact matchHere_grp1 hg hm
    | none =>
      rw [hm] at h
      have h2 : searchCaps r t = some caps := h
      exact ih caps h2

theorem matchFileTagAt_path_ne :
    ∀ {l p b r : List Char}, matchFileTagAt l = some (p, b, r) → p ≠ [] := by
  intro l p b r h
  unfold matchFileTagAt at h
  split at h
  · exact absurd h (by simp)
  · split at h
    · exact absurd h (by simp)
    · split at h
      · exact absurd h (by simp)
      · split at h
        · exact absurd h (by simp)
        · split at h
          · exact absurd h (by simp)
          · dsimp only at h
            split at h
            · exact absurd h (by simp)
            · rename_i hne
              intro hnil
              apply hne
              have h2 := Option.some.inj h
              rw [hnil, Prod.mk.injEq] at h2
              rw [h2.1]
              rfl

theorem findFileTagsF_path_ne :
    ∀ (f : Nat) (l : List Char), ∀ pr ∈ findFileTagsF f l, pr.1 ≠ [] := by
  intro f
  induction f with
  | zero => intro l pr h; simp [findFileTagsF] at h
  | succ f ih =>
    intro l pr h
    cases l with
    | nil => simp [findFileTagsF] at h
    | cons c t =>
      simp only [findFileTagsF] at h
      cases hm : matchFileTagAt (c :: t) with
      | some pbr =>
        obtain ⟨p, b, rest⟩ := pbr
        rw [hm] at h
        have h2 : pr ∈ (p, b) :: findFileTagsF f rest := h
        rcases List.mem_cons.mp h2 with h3 | h3
        · rw [h3]; exact matchFileTagAt_path_ne hm
        · exact ih rest pr h3
      | none =>
        rw [hm] at h
        have h2 : pr ∈ findFileTagsF f t := h
        exact ih t pr h2

theorem findFileTags_path_ne {l : List Char} : ∀ pr ∈ findFileTags l, pr.1 ≠ [] :=
  findFileTagsF_path_ne l.length l

theorem dictInsert_keyNe {m : List (List Char × List Char)} {k v : List Char}
    (hm : ∀ kv ∈ m, kv.1 ≠ []) (hk : k ≠ []) :
    ∀ kv ∈ dictInsert m k v, kv.1 ≠ [] := by
  intro kv hkv
  unfold dictInsert at hkv
  split at hkv
  · rcases List.mem_map.mp hkv with ⟨kv0, hkv0, heq⟩
    by_cases hc : kv0.1 = k
    · rw [if_pos hc] at heq
      rw [← heq]
      exact hk
    · rw [if_neg hc] at heq
      rw [← heq]
      exact hm kv0 hkv0
  · rcases List.mem_append.mp hkv with h | h
    · exact hm kv h
    · rcases List.mem_singleton.mp h with h2
      rw [h2]
      exact hk

theorem foldl_keyNe {β : Type} : ∀ (l : List β)
    (g : List (List Char × List Char) → β → List (List Char × List Char)),
    (∀ m a, a ∈ l → (∀ kv ∈ m, kv.1 ≠ []) → ∀ kv ∈ g m a, kv.1 ≠ []) →
    ∀ m, (∀ kv ∈ m, kv.1 ≠ []) → ∀ kv ∈ l.foldl g m, kv.1 ≠ [] := by
  intro l
  induction l with
  | nil => intro g _ m hm kv hkv; exact hm kv hkv
  | cons a t ih =>
    intro g hg m hm kv hkv
    rw [List.foldl_cons] at hkv
    exact ih g (fun m2 b hb hm2 => hg m2 b (List.mem_cons_of_mem _ hb) hm2)
      (g m a) (hg m a (List.mem_cons_self _ _) hm) kv hkv

theorem buildS1Map_keyNe (ms : List (List Char × List Char))
    (hms : ∀ pr ∈ ms, pr.1 ≠ []) : ∀ kv ∈ buildS1Map ms, kv.1 ≠ [] := by
  unfold buildS1Map
  refine foldl_keyNe ms _ ?_ [] (by simp)
  intro m a ha hm kv hkv
  split at hkv
  · exact hm kv hkv
  · exact dictInsert_keyNe hm (hms a ha) kv hkv

theorem buildS2Map_keyNe (t : List Char) : ∀ kv ∈ buildS2Map t, kv.1 ≠ [] := by
  unfold buildS2Map
  refine foldl_keyNe _ _ ?_ [] (by simp)
  intro m caps hcaps hm kv hkv
  dsimp only at hkv
  split at hkv
  · exact dictInsert_keyNe hm
      (findAllCaps_grp1 (show grp1ok incompletePat = true from rfl) hcaps) kv hkv
  · exact hm kv hkv

theorem fixCodePath_ne {p : List Char} (h : p ≠ []) : fixCodePath p ≠ [] := by
  unfold fixCodePath
  split
  · split
    · simp
    · split
      · simp
      · exact h
  · split
    · decide
    · exact h

theorem buildS3MapFrom_keyNe (ms : List Caps)
    (hms : ∀ c ∈ ms, getCap c 1 ≠ []) : ∀ kv ∈ buildS3MapFrom ms, kv.1 ≠ [] := by
  unfold buildS3MapFrom
  refine foldl_keyNe ms _ ?_ [] (by simp)
  intro m caps hcaps hm kv hkv
  dsimp only at hkv
  split at hkv
  · exact hm kv hkv
  · exact dictInsert_keyNe hm (fixCodePath_ne (hms caps hcaps)) kv hkv

theorem buildS3Map_keyNe (t : List Char) : ∀ kv ∈ buildS3Map t, kv.1 ≠ [] := by
  unfold buildS3Map
  intro kv hkv
  dsimp only at hkv
  split at hkv
  · exact buildS3MapFrom_keyNe _
      (fun c hc => findAllCaps_grp1 (show grp1ok codeBlockPatA = true from rfl) hc)
      kv hkv
  · split at hkv
    · exact buildS3MapFrom_keyNe _
        (fun c hc => findAllCaps_grp1 (show grp1ok codeBlockPatB = true from rfl) hc)
        kv hkv
    · simp at hkv

theorem buildS4Map_keyNe (t : List Char) : ∀ kv ∈ buildS4Map t, kv.1 ≠ [] := by
  unfold buildS4Map
  refine foldl_keyNe _ _ ?_ [] (by simp)
  intro m caps hcaps hm kv hkv
  exact dictInsert_keyNe hm
    (findAllCaps_grp1 (show grp1ok markdownPat = true from rfl) hcaps) kv hkv

theorem buildS5Map_keyNe (t : List Char) : ∀ kv ∈ buildS5Map t, kv.1 ≠ [] := by
  unfold buildS5Map
  intro kv hkv
  split at hkv
  · dsimp only at hkv
    cases hc : (findAllCaps componentPat1 t ++ findAllCaps componentPat2 t).map
        (fun c => getCap c 1) with
    | nil =>
      rw [hc] at hkv
      dsimp only at hkv
      split at hkv
      · exact dictInsert_keyNe (by simp) (by decide) kv hkv
      · simp at hkv
    | cons hh tt =>
      rw [hc] at hkv
      dsimp only at hkv
      split at hkv
      · exact dictInsert_keyNe (dictInsert_keyNe (by simp) (by decide))
          (by decide) kv hkv
      · exact dictInsert_keyNe (by simp) (by decide) kv hkv
  · simp at hkv

theorem buildS6Map_keyNe (t : List Char) : ∀ kv ∈ buildS6Map t, kv.1 ≠ [] := by
  unfold buildS6Map
  intro kv hkv
  dsimp only at hkv
  cases h1 : searchCaps lastResortJsxPat t with
  | some caps1 =>
    rw [h1] at hkv
    dsimp only at hkv
    cases h2 : searchCaps lastResortCssPat t with
    | some caps2 =>
      rw [h2] at hkv
      dsimp only at hkv
      exact dictInsert_keyNe (dictInsert_keyNe (by simp) (by decide))
        (by decide) kv hkv
    | none =>
      rw [h2] at hkv
      dsimp only at hkv
      exact dictInsert_keyNe (by simp) (by decide) kv hkv
  | none =>
    rw [h1] at hkv
    dsimp only at hkv
    cases h2 : searchCaps lastResortCssPat t with
    | some caps2 =>
      rw [h2] at hkv
      dsimp only at hkv
      exact dictInsert_keyNe (by simp) (by decide) kv hkv
    | none =>
      rw [h2] at hkv
      simp at hkv

theorem fileMapOf_keyNe (t : List Char) : ∀ kv ∈ fileMapOf t, kv.1 ≠ [] := by
  unfold fileMapOf
  intro kv hkv
  dsimp only at hkv
  split at hkv
  · exact buildS1Map_keyNe _ findFileTags_path_ne kv hkv
  · split at hkv
    · exact buildS2Map_keyNe t kv hkv
    · split at hkv
      · exact buildS3Map_keyNe t kv hkv
      · split at hkv
        · exact buildS4Map_keyNe t kv hkv
        · split at hkv
          · exact buildS5Map_keyNe t kv hkv
          · exact buildS6Map_keyNe t kv hkv

/-- C10 (counterexample): the parser can return a file entry whose content
is the empty string.  Strategy 4 (markdown headers, lines 577-585) stores
the trimmed body with no emptiness check, so a markdown block with a blank
body yields `content = ""`, refuting the claimed "non-empty content
string". -/
theorem c10_counterexample :
    (parse_ai_response "**src/App.jsx**```jsx\n\n```").files =
      [FileEdit.mk "src/App.jsx" ""] ∧
    ((parse_ai_response "**src/App.jsx**```jsx\n\n```").files.any
      (fun fe => fe.content = "")) = true := by
  constructor
  · rfl
  · rfl

/-- C10 (amended): `parse_ai_response` is total by construction and always
yields all six sections, and every entry of `files` carries a non-empty
path; but the content string may be empty (see the counterexample), so
only the path half of the per-entry claim survives. -/
theorem c10_paths_nonempty (response : String) :
    ∀ fe ∈ (parse_ai_response response).files, fe.path ≠ "" := by
  intro fe hfe
  have hfiles : (parse_ai_response response).files =
      (fileMapOf response.data).map (fun kv => FileEdit.mk ⟨kv.1⟩ ⟨kv.2⟩) := rfl
  rw [hfiles] at hfe
  rcases List.mem_map.mp hfe with ⟨kv, hkv, heq⟩
  have hk := fileMapOf_keyNe response.data kv hkv
  intro hcon
  apply hk
  have hpath : fe.path = (⟨kv.1⟩ : String) := by rw [← heq]
  rw [hpath] at hcon
  exact congrArg String.data hcon

/-- Witness: the amended C10 theorem applied to a concrete response whose
parse yields one file. -/
theorem c10_witness :
    FileEdit.mk "a" "hi there!" ∈
      (parse_ai_response "<file path=\"a\">hi there!</file>").files ∧
    (FileEdit.mk "a" "hi there!").path ≠ "" :=
  ⟨by decide, c10_paths_nonempty "<file path=\"a\">hi there!</file>"
    (FileEdit.mk "a" "hi there!") (by decide)⟩

end Grow99
